import Mathlib

/-!
Shallow embedding of the `FormState` reactive form-state container
(`src/example/src/App.tsx`) and the composition/array layers built on it
(`useChildForm`, `ArrayField`).

The embedding models the two-node (parent/child) configuration produced by
`useChildForm`, with a JS-style heap for the `values` containers (so object
identity, shallow copies and aliasing are observable), association lists for
the `dirty`/`errors` maps and the listener registries (JS objects with
insertion-ordered keys), and a fuel-indexed interpreter for the re-entrant
listener dispatch.  Callbacks are drawn from a small universe `LKind`
covering the callbacks that occur in the source: passive observers
(UI subscriptions), the two `useChildForm` cross-listeners (`pushDown` /
`pushUp`), and register/unregister-during-dispatch callbacks.
-/

namespace FormSpec

/-- JS primitive values (no floats; `Date` and `NaN` are not needed by any
claim). `null` and `undefined` are distinguished, as in JS. -/
inductive Prim
  | num (n : Int)
  | str (s : String)
  | bool (b : Bool)
  | null
  | undef
  deriving DecidableEq, Repr

/-- A JS value: a primitive, or a reference to a container on the heap.
Reference equality of containers is `ref` equality, mirroring `===`. -/
inductive JsVal
  | prim (p : Prim)
  | ref (r : Nat)
  deriving DecidableEq, Repr

/-- A values container: a JS array or a plain object
(`T extends ObjectOrArray` in the source). -/
inductive Container
  | arr (items : List JsVal)
  | obj (fields : List (String × JsVal))
  deriving DecidableEq, Repr

/-- An error value: a leaf error (a string, `TError = string` by default) or
a nested error map (`ErrorMap` in the source). -/
inductive ErrVal
  | str (s : String)
  | map (entries : List (String × ErrVal))
  deriving Repr

/-- An error map for one node (`ErrorMap<T, TError>`). -/
abbrev ErrMap := List (String × ErrVal)

/-- `Object.keys(error).length` as used by `setValueInternal`: for a string
JS enumerates its character indices, for an object its own keys. -/
def ErrVal.keysLen : ErrVal → Nat
  | .str s => s.length
  | .map m => m.length

/-- JS strict equality `===` on modelled values: primitives by value,
containers by reference. -/
def jsEq : JsVal → JsVal → Bool
  | .prim p, .prim q => p = q
  | .ref r, .ref s => r = s
  | _, _ => false

/-- JS truthiness test, for the `if (!setValues) throw` guard. -/
def jsFalsy : JsVal → Bool
  | .prim .null => true
  | .prim .undef => true
  | .prim (.bool b) => !b
  | .prim (.num n) => n = 0
  | .prim (.str s) => s = ""
  | .ref _ => false

/-- JS `value == null` (nullish) test, for `values ?? this.defaultValues`. -/
def jsNullish : JsVal → Bool
  | .prim .null => true
  | .prim .undef => true
  | _ => false

/-- `typeof value === 'object'` — true for containers and for `null`
(a well-known JS quirk that `recalculateDirty` inherits). -/
def jsTypeofObject : JsVal → Bool
  | .ref _ => true
  | .prim .null => true
  | _ => false

section Assoc

variable {κ α : Type} [DecidableEq κ]

/-- Association-list lookup (JS property read, `undefined` ↦ `none`). -/
def aget : List (κ × α) → κ → Option α
  | [], _ => none
  | (k, v) :: rest, key => if k = key then some v else aget rest key

/-- Association-list update: JS property write keeps an existing key at its
original insertion position and appends a new key at the end. -/
def aset : List (κ × α) → κ → α → List (κ × α)
  | [], key, v => [(key, v)]
  | (k, w) :: rest, key, v =>
    if k = key then (k, v) :: rest else (k, w) :: aset rest key v

/-- Association-list delete (JS `delete obj[key]`). -/
def adel : List (κ × α) → κ → List (κ × α)
  | [], _ => []
  | (k, w) :: rest, key => if k = key then rest else (k, w) :: adel rest key

theorem aget_aset_same (l : List (κ × α)) (k : κ) (v : α) :
    aget (aset l k v) k = some v := by
  induction l with
  | nil => simp [aset, aget]
  | cons p rest ih =>
    by_cases h : p.1 = k
    · simp [aset, aget, h]
    · simp [aset, aget, h, ih]

theorem aget_aset_other (l : List (κ × α)) (k k' : κ) (v : α) (h : k ≠ k') :
    aget (aset l k v) k' = aget l k' := by
  induction l with
  | nil => simp [aset, aget, h]
  | cons p rest ih =>
    by_cases hp : p.1 = k
    · simp [aset, aget, hp, h]
    · by_cases hp' : p.1 = k'
      · have h2 : k' ≠ k := fun hh => h hh.symm
        simp [aset, aget, hp, hp', h2]
      · simp [aset, aget, hp, hp', ih]

theorem aget_adel_other (l : List (κ × α)) (k k' : κ) (h : k ≠ k') :
    aget (adel l k) k' = aget l k' := by
  induction l with
  | nil => simp [adel]
  | cons p rest ih =>
    by_cases hp : p.1 = k
    · subst hp
      simp [adel, aget, h]
    · by_cases hp' : p.1 = k'
      · have h2 : k' ≠ k := fun hh => h hh.symm
        simp [adel, aget, hp, hp', h2]
      · simp [adel, aget, hp, hp', ih]

end Assoc

/-- `Object.keys` of a container: index strings for an array, the field keys
(in insertion order) for an object. -/
def Container.keysOf : Container → List String
  | .arr items => (List.range items.length).map (fun i => toString i)
  | .obj fields => fields.map (·.1)

/-- Number of own keys, `Object.keys(c).length`. -/
def Container.clen : Container → Nat
  | .arr items => items.length
  | .obj fields => fields.length

/-- Indexed read on an array by a JS property-key string. -/
def arrGet : List JsVal → Nat → String → Option JsVal
  | [], _, _ => none
  | v :: rest, i, key => if toString i = key then some v else arrGet rest (i + 1) key

/-- Indexed write on an array by a JS property-key string (in-range only;
JS sparse-array extension never occurs in the modelled flows). -/
def arrSet : List JsVal → Nat → String → JsVal → List JsVal
  | [], _, _, _ => []
  | v :: rest, i, key, nv =>
    if toString i = key then nv :: rest else v :: arrSet rest (i + 1) key nv

/-- JS property read `c[key]`, `undefined` when absent. -/
def cget : Container → String → JsVal
  | .arr items, key => (arrGet items 0 key).getD (.prim .undef)
  | .obj fields, key => (aget fields key).getD (.prim .undef)

/-- JS property write `c[key] = v` (in place: aliases observe it). -/
def cset : Container → String → JsVal → Container
  | .arr items, key, v =>
    if (arrGet items 0 key).isSome then .arr (arrSet items 0 key v)
    else if toString items.length = key then .arr (items ++ [v])
    else .arr items
  | .obj fields, key, v => .obj (aset fields key v)

/-- The two `FormState` instances of a `useChildForm` pair. -/
inductive Target
  | parent
  | child
  deriving DecidableEq, Repr

/-- The universe of listener callbacks occurring in the source:
`obs` is a passive subscriber (a UI hook: it only gets invoked);
`pushDown` is the `parent.listen(name, ...)` callback of `useChildForm`
(calls `child.setValues(parent.values[name], parent.errors[name] ?? {},
isDefault, parent.state, skipId)`);
`pushUp` is the `child.listenAny(...)` callback of `useChildForm`
(calls `parent.setValueInternal(name, child.values, child.isDirty,
child.errors, skipId)`);
`regKeyObs`/`unregKey`/`unregAny` are subscribers that call
`listen`/`ignore`/`ignoreAny` when invoked (re-entrant registry edits). -/
inductive LKind
  | obs
  | pushDown (name : String) (skipId : Nat)
  | pushUp (name : String) (skipId : Nat)
  | regKeyObs (t : Target) (key : String)
  | unregKey (t : Target) (key : String) (id : Nat)
  | unregAny (t : Target) (id : Nat)
  deriving DecidableEq, Repr

/-- One `FormState` instance: `values`/`defaultValues` are heap references
(JS object references), `dirty`/`errors` are JS objects modelled as
insertion-ordered association lists, the listener registries map ids to
callbacks, `validate` is the pluggable validator (source default
`() => ({})`), and `isSubmitting` is the `state` record. -/
structure NodeState where
  valuesRef : Nat
  defaultValuesRef : Nat
  dirty : List (String × Bool)
  errors : ErrMap
  keyListeners : List (String × List (Nat × LKind))
  anyListeners : List (Nat × LKind)
  validate : Nat → (Nat → Container) → ErrMap
  isSubmitting : Bool

/-- The whole mutable state: both nodes, the heap of containers, the
allocator, the static `FormState.currentId` counter, and an invocation
counter per listener id (instrumentation: `counts i` = how many times the
listener with id `i` has been invoked). -/
structure World where
  parent : NodeState
  child : NodeState
  heap : Nat → Container
  nextRef : Nat
  currentId : Nat
  counts : Nat → Nat

def nodeOf (w : World) : Target → NodeState
  | .parent => w.parent
  | .child => w.child

def setNodeOf (w : World) : Target → NodeState → World
  | .parent, ns => { w with parent := ns }
  | .child, ns => { w with child := ns }

/-- Record one invocation of listener `id`. -/
def bumpCount (w : World) (id : Nat) : World :=
  { w with counts := fun i => if i = id then w.counts i + 1 else w.counts i }

/-- Allocate a fresh container on the heap, returning its reference. -/
def allocC (w : World) (c : Container) : World × Nat :=
  ({ w with heap := fun r => if r = w.nextRef then c else w.heap r,
            nextRef := w.nextRef + 1 }, w.nextRef)

/-- Write to the container at reference `r` (in-place JS mutation). -/
def heapSet (w : World) (r : Nat) (c : Container) : World :=
  { w with heap := fun x => if x = r then c else w.heap x }

/-- `isDirty` (source `FormState.isDirty`): some dirty flag is set, or the
key counts of `values` and `defaultValues` differ. -/
def isDirtyW (w : World) (t : Target) : Bool :=
  (nodeOf w t).dirty.any (·.2) ||
    ((w.heap (nodeOf w t).valuesRef).clen ≠ (w.heap (nodeOf w t).defaultValuesRef).clen)

/-- `anyError` (source `FormState.anyError`). -/
def anyErrorW (w : World) (t : Target) : Bool :=
  (nodeOf w t).errors.length > 0

/-- `FormState.listen`: key listeners, id drawn from the static counter. -/
def listenW (w : World) (t : Target) (key : String) (cb : LKind) : World × Nat :=
  let n := nodeOf w t
  let setters := (aget n.keyListeners key).getD []
  let id := w.currentId
  let w' := setNodeOf w t
    { n with keyListeners := aset n.keyListeners key (setters ++ [(id, cb)]) }
  ({ w' with currentId := w.currentId + 1 }, id)

/-- `FormState.listenAny`. -/
def listenAnyW (w : World) (t : Target) (cb : LKind) : World × Nat :=
  let n := nodeOf w t
  let id := w.currentId
  let w' := setNodeOf w t { n with anyListeners := n.anyListeners ++ [(id, cb)] }
  ({ w' with currentId := w.currentId + 1 }, id)

/-- `FormState.ignore`: no-op (with a console warning) when the key has no
listener map, otherwise deletes the id. -/
def ignoreW (w : World) (t : Target) (key : String) (id : Nat) : World :=
  let n := nodeOf w t
  match aget n.keyListeners key with
  | none => w
  | some setters => setNodeOf w t
      { n with keyListeners := aset n.keyListeners key (adel setters id) }

/-- `FormState.ignoreAny`. -/
def ignoreAnyW (w : World) (t : Target) (id : Nat) : World :=
  let n := nodeOf w t
  setNodeOf w t { n with anyListeners := adel n.anyListeners id }

/-- `FormState` constructor: consumes one id from the static counter for
`formId` (values/defaults are assumed supplied; the null check is the
fatal `InvariantViolation` of the spec). -/
def newFormW (w : World) : World × Nat :=
  ({ w with currentId := w.currentId + 1 }, w.currentId)

/-- Result of an interpreted call: normal return, a thrown JS exception, or
interpreter fuel exhaustion (a modelling artifact, not a JS outcome). -/
inductive Res
  | ok (w : World)
  | exn (msg : String)
  | fuelOut

def Res.isOk : Res → Bool
  | .ok _ => true
  | _ => false

def Res.countsOf (r : Res) (i : Nat) : Nat :=
  match r with
  | .ok w => w.counts i
  | _ => 0

/-- The public operations the claims exercise (each maps to one source
method; `remove` is `ArrayField.remove`, acting on the child node). -/
inductive Call
  | setValue (t : Target) (key : String) (v : JsVal)
  | setValueInternal (t : Target) (key : String) (v : JsVal) (dirty : Bool)
      (error : Option (Option ErrVal)) (skipId : Option Nat)
  | unsetValue (t : Target) (key : String)
  | setValues (t : Target) (v : JsVal) (errors : Option (Option ErrMap))
      (isDefault : Bool) (state : Option Bool) (skipId : Option Nat)
  | setErrors (t : Target) (errors : Option ErrMap) (skipId : Option Nat)
  | setError (t : Target) (key : String) (e : ErrVal)
  | reset (t : Target) (v : Option JsVal)
  | remove (index : Nat)

/-- A callback runner: invoked by the dispatch loops with the current world,
the listener id, its (live-looked-up) callback, and the boolean argument
(`isDefault` for key listeners, `setValuesWasUsed` for any-listeners). -/
abbrev Runner := World → Nat → LKind → Bool → Res

/-- The `forEach` body of `fireListener`/`fireAnyListeners`: walk a
snapshot of ids, skip `skipId`, and look the callback up in the *live*
map at invocation time (`listeners![id](...)`); a deleted id yields the JS
`TypeError` of calling `undefined`. -/
def dispatchIds (live : World → List (Nat × LKind)) (run : World → Nat → LKind → Res)
    (skip : Option Nat) : List Nat → World → Res
  | [], w => .ok w
  | id :: rest, w =>
    if skip = some id then dispatchIds live run skip rest w
    else
      match aget (live w) id with
      | none => .exn "TypeError: listener is not a function"
      | some k =>
        match run w id k with
        | .ok w' => dispatchIds live run skip rest w'
        | r => r

/-- `FormState.fireListener`: snapshot the ids registered for `key`, then
dispatch. No listener map for the key means no dispatch at all. -/
def fireListenerD (rc : Runner) (w : World) (t : Target) (key : String)
    (isDefault : Bool) (skip : Option Nat) : Res :=
  match aget (nodeOf w t).keyListeners key with
  | none => .ok w
  | some m =>
      dispatchIds (fun w' => (aget (nodeOf w' t).keyListeners key).getD [])
        (fun w' id k => rc w' id k isDefault) skip (m.map (·.1)) w

/-- The `forEach` over a snapshot of value keys in
`fireAllNormalListeners`. -/
def forKeys (fire : World → String → Res) : List String → World → Res
  | [], w => .ok w
  | k :: rest, w =>
    match fire w k with
    | .ok w' => forKeys fire rest w'
    | r => r

/-- `FormState.fireAllNormalListeners`: fire the key listeners of every key
of the current `values` container. -/
def fireAllD (rc : Runner) (w : World) (t : Target) (isDefault : Bool)
    (skip : Option Nat) : Res :=
  forKeys (fun w' k => fireListenerD rc w' t k isDefault skip)
    (w.heap (nodeOf w t).valuesRef).keysOf w

/-- `FormState.fireAnyListeners`: snapshot of the any-listener ids, live
lookup, passing `setValuesWasUsed`. -/
def fireAnyD (rc : Runner) (w : World) (t : Target) (setValuesWasUsed : Bool)
    (skip : Option Nat) : Res :=
  dispatchIds (fun w' => (nodeOf w' t).anyListeners)
    (fun w' id k => rc w' id k setValuesWasUsed) skip
    ((nodeOf w t).anyListeners.map (·.1)) w

/-- `FormState.setValueInternal`: assign `values[key]` (in place on the
heap), set the dirty flag, set/delete/recompute the error entry, then fire
the key listeners and the any-listeners with the skip id. -/
def newErrorsOf (n : NodeState) (key : String) (error : Option (Option ErrVal))
    (h : Nat → Container) : ErrMap :=
  match error with
  | some (some e) =>
      if e.keysLen = 0 then adel n.errors key else aset n.errors key e
  | some none => adel n.errors key
  | none => n.validate n.valuesRef h

def setValueInternalD (rc : Runner) (w : World) (t : Target) (key : String)
    (v : JsVal) (dirty : Bool) (error : Option (Option ErrVal))
    (skip : Option Nat) : Res :=
  let n := nodeOf w t
  let w1 := heapSet w n.valuesRef (cset (w.heap n.valuesRef) key v)
  let w2 := setNodeOf w1 t
    { n with
      dirty := aset n.dirty key dirty,
      errors := newErrorsOf n key error w1.heap }
  match fireListenerD rc w2 t key false skip with
  | .ok w3 => fireAnyD rc w3 t false skip
  | r => r

/-- `FormState.setValue`: warn (no state effect) on container values, no-op
when strictly equal to the current value, otherwise `setValueInternal` with
recomputed dirtiness and the builtin validator. -/
def setValueD (rc : Runner) (w : World) (t : Target) (key : String) (v : JsVal) : Res :=
  let n := nodeOf w t
  if jsEq (cget (w.heap n.valuesRef) key) v then .ok w
  else
    setValueInternalD rc w t key v
      (!jsEq (cget (w.heap n.defaultValuesRef) key) v) none none

/-- `FormState.unsetValue`: delete the dirty and error entries for the key
and fire. -/
def unsetValueD (rc : Runner) (w : World) (t : Target) (key : String) : Res :=
  let n := nodeOf w t
  let w1 := setNodeOf w t { n with dirty := adel n.dirty key, errors := adel n.errors key }
  match fireListenerD rc w1 t key false none with
  | .ok w2 => fireAnyD rc w2 t false none
  | r => r

/-- `FormState.recalculateDirty` (pure): for every key of `values` whose
value is not `typeof 'object'`, set `dirty[key] = defaultValues[key] !==
value`. -/
def recalcDirty (w : World) (t : Target) : World :=
  let n := nodeOf w t
  let vc := w.heap n.valuesRef
  let dc := w.heap n.defaultValuesRef
  let d' := vc.keysOf.foldl
    (fun d name =>
      let value := cget vc name
      if jsTypeofObject value then d
      else aset d name (!jsEq (cget dc name) value))
    n.dirty
  setNodeOf w t { n with dirty := d' }

/-- `FormState.setValues`: throws on a `null` errors payload and on a falsy
values payload; on `isDefault` replaces the defaults, shallow-copies into
`values` (`memberCopy`) and clears `dirty`; otherwise adopts the given
container; errors are taken as given or recomputed by the validator; then
fire all key listeners, recalculate dirty, and fire the any-listeners.
Primitive truthy `values` payloads are outside the typed API
(`T extends ObjectOrArray`) and are not modelled. -/
def setValuesD (rc : Runner) (w : World) (t : Target) (v : JsVal)
    (errors : Option (Option ErrMap)) (isDefault : Bool) (state : Option Bool)
    (skip : Option Nat) : Res :=
  match errors with
  | some none => .exn "errors is null, use undefined to not set any errors"
  | _ =>
    if jsFalsy v then .exn "setValues is undefined"
    else
    match v with
    | .prim _ => .exn "model: primitive values container unsupported"
    | .ref r =>
      let n := nodeOf w t
      let w1 := if isDefault then (allocC w (w.heap r)).1 else w
      let newValuesRef := if isDefault then w.nextRef else r
      let n3 := { n with
        defaultValuesRef := if isDefault then r else n.defaultValuesRef,
        valuesRef := newValuesRef,
        dirty := if isDefault then [] else n.dirty,
        errors :=
          match errors with
          | some (some m) => m
          | _ => n.validate newValuesRef w1.heap,
        isSubmitting :=
          match state with
          | some s => s
          | none => n.isSubmitting }
      let w2 := setNodeOf w1 t n3
      match fireAllD rc w2 t isDefault skip with
      | .ok w3 => fireAnyD rc (recalcDirty w3 t) t true skip
      | res => res

/-- The effective errors argument of `setErrors`:
`if (errors === undefined) errors = this.validate(this.values)`. -/
def errsArg (w : World) (t : Target) (errors : Option ErrMap) : ErrMap :=
  match errors with
  | none => (nodeOf w t).validate (nodeOf w t).valuesRef w.heap
  | some m => m

/-- `FormState.setErrors`: recompute via the validator when omitted, no-op
when both the old and the new error maps are empty, else replace and fire
everything (any-listeners with `setValuesWasUsed = true`). -/
def setErrorsD (rc : Runner) (w : World) (t : Target) (errors : Option ErrMap)
    (skip : Option Nat) : Res :=
  let n := nodeOf w t
  let em := errsArg w t errors
  if n.errors.length = 0 && em.length = 0 then .ok w
  else
    let w1 := setNodeOf w t { n with errors := em }
    match fireAllD rc w1 t false skip with
    | .ok w2 => fireAnyD rc w2 t true skip
    | r => r

/-- `FormState.setError`: no-op when the stored error is strictly equal to
the new one (string errors compare by value; distinct error objects are
never `===`), otherwise assign `errors[name] = error` unconditionally —
note: no falsy/empty check here — and fire everything. -/
def setErrorD (rc : Runner) (w : World) (t : Target) (key : String) (e : ErrVal) : Res :=
  let n := nodeOf w t
  let same :=
    match aget n.errors key, e with
    | some (.str s), .str s' => s == s'
    | _, _ => false
  if same then .ok w
  else
    let w1 := setNodeOf w t { n with errors := aset n.errors key e }
    match fireAllD rc w1 t false none with
    | .ok w2 => fireAnyD rc w2 t true none
    | r => r

/-- `FormState.reset`: `setValues(values ?? defaultValues, {}, true)`. -/
def resetD (rc : Runner) (w : World) (t : Target) (v : Option JsVal) : Res :=
  let arg :=
    match v with
    | some x => if jsNullish x then JsVal.ref (nodeOf w t).defaultValuesRef else x
    | none => JsVal.ref (nodeOf w t).defaultValuesRef
  setValuesD rc w t arg (some (some [])) true none none

/-- `ArrayField.remove(index)`: copy the child's values array, splice the
index out, copy the error map and delete that index's entry (higher indices
keep their keys), then `form.setValues(newValues, newErrors)`. -/
def removeD (rc : Runner) (w : World) (index : Nat) : Res :=
  let n := nodeOf w .child
  match w.heap n.valuesRef with
  | .obj _ => .exn "TypeError: form.values is not iterable"
  | .arr items =>
    let (w1, r') := allocC w (.arr (items.eraseIdx index))
    let newErrors := adel n.errors (toString index)
    setValuesD rc w1 .child (.ref r') (some (some newErrors)) false none none

/-- Build the `useChildForm` cross-callback's method call from the current
world (`pushErr` is `parent.errors[name] ?? {}`; the `?? {}` default also
absorbs the untypical leaf-error case, which the composition edge itself
never produces since `pushUp` always stores a map or deletes the entry). -/
def pushErr (em : ErrMap) (name : String) : ErrMap :=
  match aget em name with
  | some (.map m) => m
  | _ => []

/-- Run one callback: record the invocation, then perform its effect.
`pushDown` and `pushUp` re-enter the interpreter (`ex`) with the method
calls made by the two `useChildForm` listeners. -/
def kindToRes (ex : World → Call → Res) (w : World) (id : Nat) (k : LKind)
    (flag : Bool) : Res :=
  let w1 := bumpCount w id
  match k with
  | .obs => .ok w1
  | .regKeyObs t key => .ok (listenW w1 t key .obs).1
  | .unregKey t key i => .ok (ignoreW w1 t key i)
  | .unregAny t i => .ok (ignoreAnyW w1 t i)
  | .pushDown name skipId =>
      ex w1 (.setValues .child (cget (w1.heap w1.parent.valuesRef) name)
        (some (some (pushErr w1.parent.errors name))) flag
        (some w1.parent.isSubmitting) (some skipId))
  | .pushUp name skipId =>
      ex w1 (.setValueInternal .parent name (.ref w1.child.valuesRef)
        (isDirtyW w1 .child) (some (some (.map w1.child.errors))) (some skipId))

/-- The fuel-indexed interpreter: one unit of fuel per re-entrant callback
invocation. -/
def exec : Nat → World → Call → Res
  | 0, _, _ => .fuelOut
  | n + 1, w, c =>
    let rc : Runner := kindToRes (exec n)
    match c with
    | .setValue t key v => setValueD rc w t key v
    | .setValueInternal t key v d e s => setValueInternalD rc w t key v d e s
    | .unsetValue t key => unsetValueD rc w t key
    | .setValues t v e d st s => setValuesD rc w t v e d st s
    | .setErrors t e s => setErrorsD rc w t e s
    | .setError t key e => setErrorD rc w t key e
    | .reset t v => resetD rc w t v
    | .remove i => removeD rc w i

/-! ## Helper predicates and basic lemmas -/

/-- Is a callback a passive observer? -/
def isObs : LKind → Bool
  | .obs => true
  | _ => false

/-- All listeners of a node are passive observers (plain UI subscriptions). -/
def nodeObs (n : NodeState) : Bool :=
  n.keyListeners.all (fun p => p.2.all (fun q => isObs q.2)) &&
    n.anyListeners.all (fun q => isObs q.2)

/-- All listeners of both nodes are passive observers. -/
def allObs (w : World) : Bool := nodeObs w.parent && nodeObs w.child

theorem jsEq_self (v : JsVal) : jsEq v v = true := by
  cases v <;> simp [jsEq]

theorem aget_mem {κ α : Type} [DecidableEq κ] {l : List (κ × α)} {k : κ} {v : α}
    (h : aget l k = some v) : (k, v) ∈ l := by
  induction l with
  | nil => simp [aget] at h
  | cons p rest ih =>
    rw [aget] at h
    by_cases hp : p.1 = k
    · rw [if_pos hp] at h
      obtain ⟨a, b⟩ := p
      simp only at hp
      injection h with h2
      subst hp
      subst h2
      exact List.mem_cons_self _ _
    · rw [if_neg hp] at h
      exact List.mem_cons_of_mem _ (ih h)

theorem aget_isSome_of_mem {κ α : Type} [DecidableEq κ] {l : List (κ × α)} {k : κ}
    (h : k ∈ l.map Prod.fst) : (aget l k).isSome := by
  induction l with
  | nil => simp at h
  | cons p rest ih =>
    by_cases hp : p.1 = k
    · simp [aget, hp]
    · rw [List.map_cons, List.mem_cons] at h
      rcases h with h | h

      · exact absurd h.symm hp
      · simp only [aget, hp, if_neg, if_false]
        exact ih h

theorem mem_aset {κ α : Type} [DecidableEq κ] {l : List (κ × α)} {k : κ} {v : α}
    {p : κ × α} (h : p ∈ aset l k v) : p ∈ l ∨ p = (k, v) := by
  induction l with
  | nil => simp [aset] at h; simp [h]
  | cons q rest ih =>
    by_cases hq : q.1 = k
    · rw [aset] at h
      simp only [hq, if_pos] at h
      rcases List.mem_cons.mp h with h | h
      · right; rw [h, ← hq]
      · left; exact List.mem_cons_of_mem _ h
    · rw [aset] at h
      simp only [hq, if_neg, if_false] at h
      rcases List.mem_cons.mp h with h | h
      · left; exact h ▸ List.mem_cons_self _ _
      · rcases ih h with h | h
        · left; exact List.mem_cons_of_mem _ h
        · right; exact h

/-- A world that differs only in its invocation counters. -/
theorem counts_update_collapse (w : World) (c c' : Nat → Nat) :
    ({ { w with counts := c } with counts := c' } : World) = { w with counts := c' } := rfl

theorem nodeOf_counts (w : World) (c : Nat → Nat) (t : Target) :
    nodeOf { w with counts := c } t = nodeOf w t := by
  cases t <;> rfl

theorem allObs_counts (w : World) (c : Nat → Nat) :
    allObs { w with counts := c } = allObs w := rfl

theorem bumpCount_counts (w : World) (c : Nat → Nat) (id : Nat) :
    bumpCount { w with counts := c } id =
      { w with counts := fun i => if i = id then c i + 1 else c i } := rfl

/-- Dispatch over any snapshot of ids whose live map never changes (it only
ever sees counts updates) and contains only observers: the dispatch
succeeds and the world is unchanged except for the counters. -/
theorem dispatch_obs (live : World → List (Nat × LKind))
    (run : World → Nat → LKind → Res) (skip : Option Nat) (w0 : World)
    (hlive : ∀ c, live { w0 with counts := c } = live w0)
    (hobs : ∀ p ∈ live w0, p.2 = LKind.obs)
    (hrun : ∀ w id, run w id .obs = .ok (bumpCount w id)) :
    ∀ (ids : List Nat) (c : Nat → Nat), (∀ id ∈ ids, (aget (live w0) id).isSome) →
      ∃ c', dispatchIds live run skip ids { w0 with counts := c } =
        .ok { w0 with counts := c' } := by
  intro ids
  induction ids with
  | nil => intro c _; exact ⟨c, rfl⟩
  | cons id rest ih =>
    intro c hin
    rw [dispatchIds]
    by_cases hskip : skip = some id
    · rw [if_pos hskip]
      exact ih c (fun i hi => hin i (List.mem_cons_of_mem _ hi))
    · rw [if_neg hskip, hlive]
      have hsome := hin id (List.mem_cons_self _ _)
      cases hk : aget (live w0) id with
      | none => rw [hk] at hsome; simp at hsome
      | some k =>
        have hkobs : k = LKind.obs := hobs _ (aget_mem hk)
        subst hkobs
        simp only [hrun, bumpCount_counts]
        exact ih _ (fun i hi => hin i (List.mem_cons_of_mem _ hi))

/-- `fireListener` on an all-observer world: succeeds, counts-only change. -/
theorem fireListenerD_obs (rc : Runner) (w : World) (t : Target) (key : String)
    (d : Bool) (skip : Option Nat)
    (hobs : allObs w = true)
    (hrc : ∀ w' id b, rc w' id .obs b = .ok (bumpCount w' id)) :
    ∃ c', fireListenerD rc w t key d skip = .ok { w with counts := c' } := by
  rw [fireListenerD]
  cases hm : aget (nodeOf w t).keyListeners key with
  | none => exact ⟨w.counts, rfl⟩
  | some m =>
    have hnode : nodeObs (nodeOf w t) = true := by
      have := hobs
      rw [allObs, Bool.and_eq_true] at this
      cases t
      · exact this.1
      · exact this.2
    have hall : ∀ p ∈ m, p.2 = LKind.obs := by
      intro p hp
      rw [nodeObs, Bool.and_eq_true] at hnode
      have h1 := List.all_eq_true.mp hnode.1 _ (aget_mem hm)
      have h2 := List.all_eq_true.mp h1 _ hp
      cases hpk : p.2 <;> simp [isObs, hpk] at h2 ⊢
    have hmain := dispatch_obs
      (fun w' => (aget (nodeOf w' t).keyListeners key).getD [])
      (fun w' id k => rc w' id k d) skip w
      (fun c => by simp only [nodeOf_counts])
      (by simpa [hm] using hall)
      (fun w' id => hrc w' id d)
      (m.map Prod.fst) w.counts
      (by intro id hid; simpa [hm] using aget_isSome_of_mem hid)
    obtain ⟨c', hc'⟩ := hmain
    exact ⟨c', by simpa using hc'⟩

/-- `fireAnyListeners` on an all-observer world: succeeds, counts-only. -/
theorem fireAnyD_obs (rc : Runner) (w : World) (t : Target) (b : Bool)
    (skip : Option Nat)
    (hobs : allObs w = true)
    (hrc : ∀ w' id b', rc w' id .obs b' = .ok (bumpCount w' id)) :
    ∃ c', fireAnyD rc w t b skip = .ok { w with counts := c' } := by
  rw [fireAnyD]
  have hnode : nodeObs (nodeOf w t) = true := by
    have := hobs
    rw [allObs, Bool.and_eq_true] at this
    cases t
    · exact this.1
    · exact this.2
  have hall : ∀ p ∈ (nodeOf w t).anyListeners, p.2 = LKind.obs := by
    intro p hp
    rw [nodeObs, Bool.and_eq_true] at hnode
    have h2 := List.all_eq_true.mp hnode.2 _ hp
    cases hpk : p.2 <;> simp [isObs, hpk] at h2 ⊢
  have hmain := dispatch_obs (fun w' => (nodeOf w' t).anyListeners)
    (fun w' id k => rc w' id k b) skip w
    (fun c => by simp only [nodeOf_counts])
    hall
    (fun w' id => hrc w' id b)
    ((nodeOf w t).anyListeners.map Prod.fst) w.counts
    (fun id hid => aget_isSome_of_mem hid)
  obtain ⟨c', hc'⟩ := hmain
  exact ⟨c', by simpa using hc'⟩

/-- `forKeys` of counts-only fires: succeeds, counts-only. -/
theorem forKeys_obs (fire : World → String → Res) (w0 : World)
    (hfire : ∀ c k, ∃ c', fire { w0 with counts := c } k = .ok { w0 with counts := c' }) :
    ∀ (ks : List String) (c : Nat → Nat),
      ∃ c', forKeys fire ks { w0 with counts := c } = .ok { w0 with counts := c' } := by
  intro ks
  induction ks with
  | nil => intro c; exact ⟨c, rfl⟩
  | cons k rest ih =>
    intro c
    obtain ⟨c1, hc1⟩ := hfire c k
    obtain ⟨c2, hc2⟩ := ih c1
    exact ⟨c2, by rw [forKeys]; simp only [hc1, hc2]⟩

/-- The `kindToRes` runner always treats an observer as a pure bump. -/
theorem kindToRes_obs (ex : World → Call → Res) (w : World) (id : Nat) (b : Bool) :
    kindToRes ex w id .obs b = .ok (bumpCount w id) := rfl

/-- `fireAllNormalListeners` on an all-observer world: succeeds, counts-only. -/
theorem fireAllD_obs (rc : Runner) (w : World) (t : Target) (d : Bool)
    (skip : Option Nat)
    (hobs : allObs w = true)
    (hrc : ∀ w' id b, rc w' id .obs b = .ok (bumpCount w' id)) :
    ∃ c', fireAllD rc w t d skip = .ok { w with counts := c' } := by
  rw [fireAllD]
  have hmain := forKeys_obs (fun w' k => fireListenerD rc w' t k d skip) w
    (fun c k => by
      have := fireListenerD_obs rc { w with counts := c } t k d skip
        (by rw [allObs_counts]; exact hobs) hrc
      obtain ⟨c', hc'⟩ := this
      exact ⟨c', by simpa using hc'⟩)
    (w.heap (nodeOf w t).valuesRef).keysOf w.counts
  obtain ⟨c', hc'⟩ := hmain
  exact ⟨c', by simpa using hc'⟩


/-! ## Effect of each operation on an all-observer world

For worlds whose listeners are all passive observers, each operation is its
pure state transformation plus a counts-only change from the dispatch.  The
`…Pure` functions repeat the non-dispatch part of the corresponding `…D`
interpreter function and the `…_obs` lemmas prove the correspondence. -/

theorem nodeOf_setNodeOf (w : World) (t : Target) (n : NodeState) :
    nodeOf (setNodeOf w t n) t = n := by cases t <;> rfl

theorem setNodeOf_counts (w : World) (c : Nat → Nat) (t : Target) (n : NodeState) :
    setNodeOf { w with counts := c } t n = { setNodeOf w t n with counts := c } := by
  cases t <;> rfl

theorem recalcDirty_counts (w : World) (c : Nat → Nat) (t : Target) :
    recalcDirty { w with counts := c } t = { recalcDirty w t with counts := c } := by
  cases t <;> rfl

/-- `setValueInternal` without the dispatch. -/
def setValueInternalPure (w : World) (t : Target) (key : String) (v : JsVal)
    (dirty : Bool) (error : Option (Option ErrVal)) : World :=
  let n := nodeOf w t
  let w1 := heapSet w n.valuesRef (cset (w.heap n.valuesRef) key v)
  setNodeOf w1 t
    { n with
      dirty := aset n.dirty key dirty,
      errors := newErrorsOf n key error w1.heap }

theorem allObs_setValueInternalPure (w : World) (t : Target) (key : String)
    (v : JsVal) (d : Bool) (err : Option (Option ErrVal)) :
    allObs (setValueInternalPure w t key v d err) = allObs w := by
  cases t <;> rfl

theorem setValueInternalD_obs (rc : Runner) (w : World) (t : Target)
    (key : String) (v : JsVal) (d : Bool) (err : Option (Option ErrVal))
    (skip : Option Nat) (hobs : allObs w = true)
    (hrc : ∀ w' id b, rc w' id .obs b = .ok (bumpCount w' id)) :
    ∃ c', setValueInternalD rc w t key v d err skip =
      .ok { setValueInternalPure w t key v d err with counts := c' } := by
  have hobs2 : allObs (setValueInternalPure w t key v d err) = true := by
    rw [allObs_setValueInternalPure]; exact hobs
  obtain ⟨c1, h1⟩ := fireListenerD_obs rc (setValueInternalPure w t key v d err)
    t key false skip hobs2 hrc
  obtain ⟨c2, h2⟩ := fireAnyD_obs rc
    { setValueInternalPure w t key v d err with counts := c1 } t false skip
    (by rw [allObs_counts]; exact hobs2) hrc
  refine ⟨c2, ?_⟩
  show (match fireListenerD rc (setValueInternalPure w t key v d err) t key false skip with
    | .ok w3 => fireAnyD rc w3 t false skip
    | r => r) = .ok { setValueInternalPure w t key v d err with counts := c2 }
  rw [h1]
  show fireAnyD rc { setValueInternalPure w t key v d err with counts := c1 } t false skip = _
  rw [h2, counts_update_collapse]

/-- `unsetValue` without the dispatch. -/
def unsetValuePure (w : World) (t : Target) (key : String) : World :=
  let n := nodeOf w t
  setNodeOf w t { n with dirty := adel n.dirty key, errors := adel n.errors key }

theorem allObs_unsetValuePure (w : World) (t : Target) (key : String) :
    allObs (unsetValuePure w t key) = allObs w := by
  cases t <;> rfl

theorem unsetValueD_obs (rc : Runner) (w : World) (t : Target) (key : String)
    (hobs : allObs w = true)
    (hrc : ∀ w' id b, rc w' id .obs b = .ok (bumpCount w' id)) :
    ∃ c', unsetValueD rc w t key =
      .ok { unsetValuePure w t key with counts := c' } := by
  have hobs2 : allObs (unsetValuePure w t key) = true := by
    rw [allObs_unsetValuePure]; exact hobs
  obtain ⟨c1, h1⟩ := fireListenerD_obs rc (unsetValuePure w t key) t key false none hobs2 hrc
  obtain ⟨c2, h2⟩ := fireAnyD_obs rc { unsetValuePure w t key with counts := c1 }
    t false none (by rw [allObs_counts]; exact hobs2) hrc
  refine ⟨c2, ?_⟩
  show (match fireListenerD rc (unsetValuePure w t key) t key false none with
    | .ok w2 => fireAnyD rc w2 t false none
    | r => r) = .ok { unsetValuePure w t key with counts := c2 }
  rw [h1]
  show fireAnyD rc { unsetValuePure w t key with counts := c1 } t false none = _
  rw [h2, counts_update_collapse]

/-- `setValues` up to (and excluding) the dispatch and dirty
recalculation. -/
def setValuesPre (w : World) (t : Target) (r : Nat) (errs : Option ErrMap)
    (isDef : Bool) (st : Option Bool) : World :=
  let n := nodeOf w t
  let w1 := if isDef then (allocC w (w.heap r)).1 else w
  let newValuesRef := if isDef then w.nextRef else r
  let n3 := { n with
    defaultValuesRef := if isDef then r else n.defaultValuesRef,
    valuesRef := newValuesRef,
    dirty := if isDef then [] else n.dirty,
    errors :=
      match errs with
      | some m => m
      | none => n.validate newValuesRef w1.heap,
    isSubmitting :=
      match st with
      | some s => s
      | none => n.isSubmitting }
  setNodeOf w1 t n3

/-- `setValues` without the dispatch (the dirty recalculation runs between
the two dispatch phases but only touches `dirty`). -/
def setValuesPure (w : World) (t : Target) (r : Nat) (errs : Option ErrMap)
    (isDef : Bool) (st : Option Bool) : World :=
  recalcDirty (setValuesPre w t r errs isDef st) t

theorem allObs_setValuesPre (w : World) (t : Target) (r : Nat)
    (errs : Option ErrMap) (isDef : Bool) (st : Option Bool) :
    allObs (setValuesPre w t r errs isDef st) = allObs w := by
  cases isDef <;> cases t <;> rfl

theorem allObs_recalcDirty (w : World) (t : Target) :
    allObs (recalcDirty w t) = allObs w := by
  cases t <;> rfl

theorem setValuesD_obs (rc : Runner) (w : World) (t : Target) (r : Nat)
    (errs : Option ErrMap) (isDef : Bool) (st : Option Bool) (skip : Option Nat)
    (hobs : allObs w = true)
    (hrc : ∀ w' id b, rc w' id .obs b = .ok (bumpCount w' id)) :
    ∃ c', setValuesD rc w t (.ref r) (errs.map some) isDef st skip =
      .ok { setValuesPure w t r errs isDef st with counts := c' } := by
  have hobs2 : allObs (setValuesPre w t r errs isDef st) = true := by
    rw [allObs_setValuesPre]; exact hobs
  obtain ⟨c1, h1⟩ := fireAllD_obs rc (setValuesPre w t r errs isDef st)
    t isDef skip hobs2 hrc
  obtain ⟨c2, h2⟩ := fireAnyD_obs rc
    { recalcDirty (setValuesPre w t r errs isDef st) t with counts := c1 } t true skip
    (by rw [allObs_counts, allObs_recalcDirty]; exact hobs2) hrc
  refine ⟨c2, ?_⟩
  have hmain : (match fireAllD rc (setValuesPre w t r errs isDef st) t isDef skip with
      | .ok w3 => fireAnyD rc (recalcDirty w3 t) t true skip
      | res => res) =
      .ok { setValuesPure w t r errs isDef st with counts := c2 } := by
    rw [h1]
    show fireAnyD rc (recalcDirty { setValuesPre w t r errs isDef st with counts := c1 } t) t true skip = _
    rw [recalcDirty_counts, h2, counts_update_collapse, setValuesPure]
  cases errs with
  | none => exact hmain
  | some m => exact hmain

/-- `setErrors` without the dispatch (non-no-op branch). -/
def setErrorsPure (w : World) (t : Target) (errs : Option ErrMap) : World :=
  setNodeOf w t { nodeOf w t with errors := errsArg w t errs }

theorem allObs_setErrorsPure (w : World) (t : Target) (errs : Option ErrMap) :
    allObs (setErrorsPure w t errs) = allObs w := by
  cases t <;> rfl

theorem setErrorsD_obs (rc : Runner) (w : World) (t : Target)
    (errs : Option ErrMap) (skip : Option Nat) (hobs : allObs w = true)
    (hrc : ∀ w' id b, rc w' id .obs b = .ok (bumpCount w' id)) :
    setErrorsD rc w t errs skip = .ok w ∨
    ∃ c', setErrorsD rc w t errs skip =
      .ok { setErrorsPure w t errs with counts := c' } := by
  by_cases hcond :
      ((nodeOf w t).errors.length = 0 && (errsArg w t errs).length = 0) = true
  · left
    show (if (nodeOf w t).errors.length = 0 && (errsArg w t errs).length = 0
      then Res.ok w else _) = Res.ok w
    rw [if_pos hcond]
  · right
    have hobs2 : allObs (setErrorsPure w t errs) = true := by
      rw [allObs_setErrorsPure]; exact hobs
    obtain ⟨c1, h1⟩ := fireAllD_obs rc (setErrorsPure w t errs) t false skip hobs2 hrc
    obtain ⟨c2, h2⟩ := fireAnyD_obs rc { setErrorsPure w t errs with counts := c1 }
      t true skip (by rw [allObs_counts]; exact hobs2) hrc
    refine ⟨c2, ?_⟩
    show (if (nodeOf w t).errors.length = 0 && (errsArg w t errs).length = 0
      then Res.ok w
      else match fireAllD rc (setErrorsPure w t errs) t false skip with
        | .ok w2 => fireAnyD rc w2 t true skip
        | r => r) = .ok { setErrorsPure w t errs with counts := c2 }
    rw [if_neg hcond, h1]
    show fireAnyD rc { setErrorsPure w t errs with counts := c1 } t true skip = _
    rw [h2, counts_update_collapse]

/-! ## Concrete sample worlds and result projections (for witnesses) -/

/-- A passive form node used as a placeholder. -/
def dummyNode : NodeState :=
  { valuesRef := 0, defaultValuesRef := 0, dirty := [], errors := [],
    keyListeners := [], anyListeners := [],
    validate := fun _ _ => [], isSubmitting := false }

def dummyWorld : World :=
  { parent := dummyNode, child := dummyNode, heap := fun _ => .obj [],
    nextRef := 0, currentId := 0, counts := fun _ => 0 }

/-- The final world of a successful result. -/
def Res.world : Res → World
  | .ok w => w
  | _ => dummyWorld

def Res.errsOf (r : Res) (t : Target) : ErrMap :=
  match r with
  | .ok w => (nodeOf w t).errors
  | _ => []

def Res.dirtyOf (r : Res) (t : Target) : List (String × Bool) :=
  match r with
  | .ok w => (nodeOf w t).dirty
  | _ => []

/-- A small concrete two-node world with only passive listeners: parent
values `{a: 1, b: 2, list: &1}` (defaults identical), child values
`[1, 2, 3]`, a spare container `{b: 5}` at ref 2, default validators. -/
def sampleWorld : World :=
  { parent := { valuesRef := 0, defaultValuesRef := 3, dirty := [], errors := [],
                keyListeners := [("a", [(20, .obs)]), ("b", [(21, .obs)])],
                anyListeners := [(22, .obs)],
                validate := fun _ _ => [], isSubmitting := false },
    child := { valuesRef := 1, defaultValuesRef := 4, dirty := [],
               errors := [("1", .str "bad")],
               keyListeners := [], anyListeners := [(23, .obs)],
               validate := fun _ _ => [], isSubmitting := false },
    heap := fun r =>
      if r = 0 then .obj [("a", .prim (.num 1)), ("b", .prim (.num 2)), ("list", .ref 1)]
      else if r = 1 then .arr [.prim (.num 1), .prim (.num 2), .prim (.num 3)]
      else if r = 2 then .obj [("b", .prim (.num 5))]
      else if r = 3 then .obj [("a", .prim (.num 1)), ("b", .prim (.num 2)), ("list", .ref 1)]
      else if r = 4 then .arr [.prim (.num 1), .prim (.num 2), .prim (.num 3)]
      else .obj [],
    nextRef := 5, currentId := 30, counts := fun _ => 0 }

/-! ## C5 — null error payload to `setValues` -/

/-- C5 counterexample: the claim says a `null` errors payload to
`setValues` is a recoverable usage error that is logged and lets execution
continue; the code instead throws immediately — here the call on a concrete
world produces the thrown exception, not a normal return. -/
theorem c5_null_errors_counterexample :
    exec 1 sampleWorld (.setValues .parent (.ref 2) (some none) false none none) =
      .exn "errors is null, use undefined to not set any errors" := rfl

/-- C5 (amended): passing a `null` errors payload where `undefined` was
required makes `setValues` throw immediately, before any state change or
dispatch; the error interrupts control flow (fail-fast), it is not a
logged-and-recovered diagnostic. -/
theorem c5_null_errors_throws (n : Nat) (w : World) (t : Target) (v : JsVal)
    (isDef : Bool) (st : Option Bool) (skip : Option Nat) :
    exec (n + 1) w (.setValues t v (some none) isDef st skip) =
      .exn "errors is null, use undefined to not set any errors" := rfl

/-! ## C7 — `setValue` with a strictly-equal primitive is a no-op -/

/-- C7: for any node and key, `setValue(key, v)` with `v` a primitive that
is strictly equal (`===`) to the currently stored `values[key]` returns
before any mutation or dispatch: the entire world (values, dirty, errors,
and every invocation counter) is unchanged. -/
theorem c7_setValue_equal_primitive_noop (n : Nat) (w : World) (t : Target)
    (key : String) (p : Prim)
    (h : cget (w.heap (nodeOf w t).valuesRef) key = .prim p) :
    exec (n + 1) w (.setValue t key (.prim p)) = .ok w := by
  have hguard : jsEq (cget (w.heap (nodeOf w t).valuesRef) key) (.prim p) = true := by
    rw [h]; exact jsEq_self _
  show (if jsEq (cget (w.heap (nodeOf w t).valuesRef) key) (.prim p) then Res.ok w
    else setValueInternalD (kindToRes (exec n)) w t key (.prim p)
      (!jsEq (cget (w.heap (nodeOf w t).defaultValuesRef) key) (.prim p)) none none) =
    Res.ok w
  rw [if_pos hguard]

/-- C7 witness: on the concrete sample world, `setValue('a', 1)` (the
stored value) returns the world unchanged. -/
theorem c7_witness :
    exec 1 sampleWorld (.setValue .parent "a" (.prim (.num 1))) = .ok sampleWorld :=
  c7_setValue_equal_primitive_noop 0 sampleWorld .parent "a" (.num 1) rfl

/-! ## C6 — `setValues(v, undefined, false)` recomputes errors via the
validator -/

/-- C6: for any node and container `v`, after `setValues(v, undefined,
false)` on a world with passive listeners, the node's error map is exactly
the node's validator applied to the (adopted) values container. -/
theorem c6_setValues_validator_errors (n : Nat) (w : World) (t : Target) (r : Nat)
    (hobs : allObs w = true) (w' : World)
    (h : exec (n + 1) w (.setValues t (.ref r) none false none none) = .ok w') :
    (nodeOf w' t).errors = (nodeOf w t).validate r w.heap := by
  obtain ⟨c', hc⟩ := setValuesD_obs (kindToRes (exec n)) w t r none false none none
    hobs (fun w'' id b => rfl)
  have h2 : exec (n + 1) w (.setValues t (.ref r) none false none none) =
      .ok { setValuesPure w t r none false none with counts := c' } := hc
  rw [h2] at h
  injection h with h3
  rw [← h3]
  cases t <;> rfl

/-- C6 witness: concrete instance on the sample world (default validator,
so the resulting error map is empty). -/
theorem c6_witness :
    exec 1 sampleWorld (.setValues .parent (.ref 2) none false none none) =
      .ok ((exec 1 sampleWorld (.setValues .parent (.ref 2) none false none none)).world) ∧
    (nodeOf ((exec 1 sampleWorld (.setValues .parent (.ref 2) none false none none)).world) .parent).errors =
      (nodeOf sampleWorld .parent).validate 2 sampleWorld.heap := by
  have h1 : exec 1 sampleWorld (.setValues .parent (.ref 2) none false none none) =
      .ok ((exec 1 sampleWorld (.setValues .parent (.ref 2) none false none none)).world) := rfl
  exact ⟨h1, c6_setValues_validator_errors 0 sampleWorld .parent 2 rfl _ h1⟩

/-! ## C3 — `reset(x)` round-trip -/

theorem mem_adel {κ α : Type} [DecidableEq κ] {l : List (κ × α)} {k : κ}
    {p : κ × α} (h : p ∈ adel l k) : p ∈ l := by
  induction l with
  | nil => simp [adel] at h
  | cons q rest ih =>
    rw [adel] at h
    by_cases hq : q.1 = k
    · rw [if_pos hq] at h
      exact List.mem_cons_of_mem _ h
    · rw [if_neg hq] at h
      rcases List.mem_cons.mp h with h | h
      · exact h ▸ List.mem_cons_self _ _
      · exact List.mem_cons_of_mem _ (ih h)

/-- The dirty-recalculation fold only ever writes `false` when the values
and default-values containers agree pointwise. -/
theorem recalc_fold_false (vc dc : Container)
    (h : ∀ name, cget dc name = cget vc name) :
    ∀ (ks : List String) (d : List (String × Bool)), (∀ p ∈ d, p.2 = false) →
      ∀ p ∈ ks.foldl (fun d name =>
          if jsTypeofObject (cget vc name) then d
          else aset d name (!jsEq (cget dc name) (cget vc name))) d, p.2 = false := by
  intro ks
  induction ks with
  | nil => intro d hd p hp; exact hd p hp
  | cons k rest ih =>
    intro d hd p hp
    rw [List.foldl_cons] at hp
    by_cases hobj : jsTypeofObject (cget vc k) = true
    · rw [if_pos hobj] at hp
      exact ih d hd p hp
    · rw [if_neg hobj] at hp
      refine ih _ ?_ p hp
      intro q hq
      rcases mem_aset hq with hq | hq
      · exact hd q hq
      · rw [hq]
        show (!jsEq (cget dc k) (cget vc k)) = false
        rw [h k, jsEq_self]
        rfl

theorem heap_alloc_at_self (w : World) (r : Nat) :
    (if r = w.nextRef then w.heap r else w.heap r) = w.heap r := by
  by_cases h : r = w.nextRef <;> simp [h]

/-- C3 counterexample: the claim says `reset(x)` leaves an *empty* dirty
map; on a concrete world with `x = {b: 5}` the dirty map after `reset(x)`
is `[("b", false)]` — every scalar key is re-entered with an explicit
`false`, so the map is not empty. -/
theorem c3_reset_dirty_counterexample :
    (exec 1 sampleWorld (.reset .parent (some (.ref 2)))).dirtyOf .parent =
      [("b", false)] ∧
    (exec 1 sampleWorld (.reset .parent (some (.ref 2)))).dirtyOf .parent ≠ [] := by
  constructor
  · rfl
  · intro hc
    rw [show (exec 1 sampleWorld (.reset .parent (some (.ref 2)))).dirtyOf .parent =
      [("b", false)] from rfl] at hc
    exact absurd hc (by simp)

/-- C3 (amended): `reset(x)` behaves as `setValues(x ?? defaultValues, {},
isDefault=true)` (last conjunct, definitional); afterwards the values
container is content-equal to `x` (a fresh shallow copy), the defaults are
`x` itself, the errors map is empty, and the dirty map — rather than being
empty — maps every entry it holds to `false` (`recalculateDirty` re-enters
every scalar key with an explicit `false`), so `isDirty` is `false`. -/
theorem c3_reset_roundtrip (n : Nat) (w : World) (t : Target) (r : Nat)
    (hobs : allObs w = true) (w' : World)
    (h : exec (n + 1) w (.reset t (some (.ref r))) = .ok w') :
    w'.heap (nodeOf w' t).valuesRef = w.heap r ∧
    (nodeOf w' t).defaultValuesRef = r ∧
    (nodeOf w' t).errors = [] ∧
    (∀ p ∈ (nodeOf w' t).dirty, p.2 = false) ∧
    isDirtyW w' t = false ∧
    (∀ x, exec (n + 1) w (.reset t (some x)) =
      exec (n + 1) w (.setValues t
        (if jsNullish x then .ref (nodeOf w t).defaultValuesRef else x)
        (some (some [])) true none none)) := by
  obtain ⟨c', hc⟩ := setValuesD_obs (kindToRes (exec n)) w t r (some []) true none none
    hobs (fun w'' id b => rfl)
  have h2 : exec (n + 1) w (.reset t (some (.ref r))) =
      .ok { setValuesPure w t r (some []) true none with counts := c' } := hc
  rw [h2] at h
  injection h with h3
  rw [← h3]
  have hvals : ({ setValuesPure w t r (some []) true none with counts := c' } : World).heap
      (nodeOf { setValuesPure w t r (some []) true none with counts := c' } t).valuesRef = w.heap r := by
    cases t <;>
    · show (if w.nextRef = w.nextRef then w.heap r else w.heap w.nextRef) = w.heap r
      simp
  have hpoint : ∀ name,
      cget ((setValuesPre w t r (some []) true none).heap
        (nodeOf (setValuesPre w t r (some []) true none) t).defaultValuesRef) name =
      cget ((setValuesPre w t r (some []) true none).heap
        (nodeOf (setValuesPre w t r (some []) true none) t).valuesRef) name := by
    intro name
    cases t <;>
    · show cget (if r = w.nextRef then w.heap r else w.heap r) name =
        cget (if w.nextRef = w.nextRef then w.heap r else w.heap w.nextRef) name
      rw [heap_alloc_at_self]
      simp
  have hdirty : ∀ p ∈ (nodeOf { setValuesPure w t r (some []) true none with counts := c' } t).dirty,
      p.2 = false := by
    intro p hp
    have hp2 : p ∈ ((setValuesPre w t r (some []) true none).heap
        (nodeOf (setValuesPre w t r (some []) true none) t).valuesRef).keysOf.foldl
        (fun d name =>
          if jsTypeofObject (cget ((setValuesPre w t r (some []) true none).heap
              (nodeOf (setValuesPre w t r (some []) true none) t).valuesRef) name) then d
          else aset d name
            (!jsEq (cget ((setValuesPre w t r (some []) true none).heap
                (nodeOf (setValuesPre w t r (some []) true none) t).defaultValuesRef) name)
              (cget ((setValuesPre w t r (some []) true none).heap
                (nodeOf (setValuesPre w t r (some []) true none) t).valuesRef) name)))
        (nodeOf (setValuesPre w t r (some []) true none) t).dirty := by
      cases t <;> exact hp
    have hstart : ∀ q ∈ (nodeOf (setValuesPre w t r (some []) true none) t).dirty,
        (q : String × Bool).2 = false := by
      cases t <;>
      · intro q hq
        exact absurd (show q ∈ ([] : List (String × Bool)) from hq) (List.not_mem_nil q)
    exact recalc_fold_false _ _ hpoint _ _ hstart p hp2
  refine ⟨hvals, ?_, ?_, hdirty, ?_, ?_⟩
  · cases t <;> rfl
  · cases t <;> rfl
  · rw [isDirtyW]
    have hany : (nodeOf { setValuesPure w t r (some []) true none with counts := c' } t).dirty.any
        (·.2) = false := by
      rw [List.any_eq_false]
      intro p hp
      rw [hdirty p hp]
      simp
    rw [hany]
    have hclen : ({ setValuesPure w t r (some []) true none with counts := c' } : World).heap
        (nodeOf { setValuesPure w t r (some []) true none with counts := c' } t).defaultValuesRef
        = w.heap r := by
      cases t <;>
      · show (if r = w.nextRef then w.heap r else w.heap r) = w.heap r
        exact heap_alloc_at_self w r
    rw [hvals, hclen]
    simp
  · intro x
    rfl

/-- C3 witness: the amended round-trip instantiated on the sample world
with `x = {b: 5}`. -/
theorem c3_witness :
    exec 1 sampleWorld (.reset .parent (some (.ref 2))) =
      .ok ((exec 1 sampleWorld (.reset .parent (some (.ref 2)))).world) ∧
    ((exec 1 sampleWorld (.reset .parent (some (.ref 2)))).world.heap
      (nodeOf ((exec 1 sampleWorld (.reset .parent (some (.ref 2)))).world) .parent).valuesRef =
      sampleWorld.heap 2 ∧
     isDirtyW ((exec 1 sampleWorld (.reset .parent (some (.ref 2)))).world) .parent = false) := by
  have h1 : exec 1 sampleWorld (.reset .parent (some (.ref 2))) =
      .ok ((exec 1 sampleWorld (.reset .parent (some (.ref 2)))).world) := rfl
  have h := c3_reset_roundtrip 0 sampleWorld .parent 2 rfl _ h1
  exact ⟨h1, h.1, h.2.2.2.2.1⟩

/-! ## C2 — the "no falsy/empty error entry" invariant -/

/-- Every entry of an error map is truthy and non-empty (`Object.keys(e)`
non-empty: a non-empty string or a non-empty nested map). -/
def errOkB (m : ErrMap) : Bool := m.all (fun p => p.2.keysLen != 0)

theorem errOkB_adel (m : ErrMap) (k : String) (h : errOkB m = true) :
    errOkB (adel m k) = true := by
  rw [errOkB, List.all_eq_true] at h ⊢
  intro p hp
  exact h p (mem_adel hp)

theorem errOkB_aset (m : ErrMap) (k : String) (e : ErrVal)
    (h : errOkB m = true) (he : ¬e.keysLen = 0) :
    errOkB (aset m k e) = true := by
  rw [errOkB, List.all_eq_true] at h ⊢
  intro p hp
  rcases mem_aset hp with hp | hp
  · exact h p hp
  · rw [hp]
    simpa using he

/-- The operations of the (amended) claim: everything except `setError`,
with explicitly-supplied error maps themselves free of falsy entries. -/
def goodCall : Call → Bool
  | .setError _ _ _ => false
  | .setValues _ _ (some (some m)) _ _ _ => errOkB m
  | .setErrors _ (some m) _ => errOkB m
  | _ => true

theorem c2_svi_ok (rc : Runner) (w : World) (t : Target) (key : String)
    (v : JsVal) (d : Bool) (err : Option (Option ErrVal)) (sk : Option Nat)
    (hobs : allObs w = true)
    (hrc : ∀ w'' id b, rc w'' id .obs b = .ok (bumpCount w'' id))
    (hval : ∀ t' r hp, errOkB ((nodeOf w t').validate r hp) = true)
    (hperr : errOkB w.parent.errors = true) (hcerr : errOkB w.child.errors = true)
    (w' : World) (h : setValueInternalD rc w t key v d err sk = .ok w') :
    errOkB w'.parent.errors = true ∧ errOkB w'.child.errors = true := by
  obtain ⟨c', hc⟩ := setValueInternalD_obs rc w t key v d err sk hobs hrc
  rw [hc] at h
  injection h with h3
  rw [← h3]
  have hnew : ∀ t0 : Target, errOkB ((nodeOf w t0).errors) = true →
      errOkB (newErrorsOf (nodeOf w t0) key err
        (heapSet w (nodeOf w t0).valuesRef
          (cset (w.heap (nodeOf w t0).valuesRef) key v)).heap) = true := by
    intro t0 h0
    cases err with
    | none => exact hval t0 _ _
    | some e =>
      cases e with
      | none => exact errOkB_adel _ _ h0
      | some ev =>
        rw [newErrorsOf]
        by_cases hlen : ev.keysLen = 0
        · rw [if_pos hlen]
          exact errOkB_adel _ _ h0
        · rw [if_neg hlen]
          exact errOkB_aset _ _ _ h0 hlen
  cases t
  · exact ⟨hnew .parent hperr, hcerr⟩
  · exact ⟨hperr, hnew .child hcerr⟩

theorem c2_setValues_ok (rc : Runner) (w : World) (t : Target) (r : Nat)
    (errs : Option ErrMap) (isDef : Bool) (st : Option Bool) (sk : Option Nat)
    (hobs : allObs w = true)
    (hrc : ∀ w'' id b, rc w'' id .obs b = .ok (bumpCount w'' id))
    (hval : ∀ t' r' hp, errOkB ((nodeOf w t').validate r' hp) = true)
    (hperr : errOkB w.parent.errors = true) (hcerr : errOkB w.child.errors = true)
    (hgood : ∀ m, errs = some m → errOkB m = true)
    (w' : World) (h : setValuesD rc w t (.ref r) (errs.map some) isDef st sk = .ok w') :
    errOkB w'.parent.errors = true ∧ errOkB w'.child.errors = true := by
  obtain ⟨c', hc⟩ := setValuesD_obs rc w t r errs isDef st sk hobs hrc
  rw [hc] at h
  injection h with h3
  rw [← h3]
  cases t <;> cases isDef <;>
    refine ⟨?_, ?_⟩ <;>
    first
      | exact hperr
      | exact hcerr
      | (cases errs with
          | none => exact hval _ _ _
          | some m => exact hgood m rfl)

/-- C2 counterexample: the claim includes `setError` among the operations
preserving the "no falsy/empty error entry" invariant, but
`FormState.setError` assigns `this.errors[name] = error` without any
falsy/empty check: starting from a world whose error maps satisfy the
invariant, `setError('a', '')` succeeds and leaves the empty-string error
stored under `'a'`. -/
theorem c2_setError_counterexample :
    errOkB sampleWorld.parent.errors = true ∧
    errOkB sampleWorld.child.errors = true ∧
    (exec 1 sampleWorld (.setError .parent "a" (.str ""))).isOk = true ∧
    aget ((exec 1 sampleWorld (.setError .parent "a" (.str ""))).errsOf .parent) "a" =
      some (.str "") ∧
    errOkB ((exec 1 sampleWorld (.setError .parent "a" (.str ""))).errsOf .parent) = false :=
  ⟨rfl, rfl, rfl, rfl, rfl⟩

/-- C2 (amended): the invariant "`errors` never maps a key to an
empty/falsy error" is preserved by `setValue`, `setValueInternal`,
`unsetValue`, `reset`, `remove`, and by `setValues`/`setErrors` whenever
the explicitly-supplied error map itself satisfies the invariant — all
under validators whose output satisfies it (the default validator does).
It is *not* preserved by `setError`, which stores any error value
unchecked (see the counterexample). -/
theorem c2_errors_invariant (nf : Nat) (w : World) (c : Call)
    (hobs : allObs w = true) (hgoodc : goodCall c = true)
    (hval : ∀ t r hp, errOkB ((nodeOf w t).validate r hp) = true)
    (hperr : errOkB w.parent.errors = true) (hcerr : errOkB w.child.errors = true)
    (w' : World) (h : exec (nf + 1) w c = .ok w') :
    errOkB w'.parent.errors = true ∧ errOkB w'.child.errors = true := by
  have hrc : ∀ (w'' : World) (id : Nat) (b : Bool),
      kindToRes (exec nf) w'' id .obs b = .ok (bumpCount w'' id) := fun _ _ _ => rfl
  cases c with
  | setValue t key v =>
    have h' : setValueD (kindToRes (exec nf)) w t key v = .ok w' := h
    simp only [setValueD] at h'
    by_cases hg : jsEq (cget (w.heap (nodeOf w t).valuesRef) key) v = true
    · rw [if_pos hg] at h'
      injection h' with h3
      rw [← h3]
      exact ⟨hperr, hcerr⟩
    · rw [if_neg hg] at h'
      exact c2_svi_ok _ _ _ _ _ _ _ _ hobs hrc hval hperr hcerr _ h'
  | setValueInternal t key v d e s =>
    exact c2_svi_ok _ _ _ _ _ _ _ _ hobs hrc hval hperr hcerr _ h
  | unsetValue t key =>
    have h' : unsetValueD (kindToRes (exec nf)) w t key = .ok w' := h
    obtain ⟨c', hc⟩ := unsetValueD_obs (kindToRes (exec nf)) w t key hobs hrc
    rw [hc] at h'
    injection h' with h3
    rw [← h3]
    cases t
    · exact ⟨errOkB_adel _ _ hperr, hcerr⟩
    · exact ⟨hperr, errOkB_adel _ _ hcerr⟩
  | setValues t v e d st sk =>
    cases e with
    | none =>
      cases v with
      | prim p =>
        have h' : setValuesD (kindToRes (exec nf)) w t (.prim p) none d st sk = .ok w' := h
        simp only [setValuesD] at h'
        by_cases hf : jsFalsy (.prim p) = true
        · rw [if_pos hf] at h'
          exact Res.noConfusion h'
        · rw [if_neg hf] at h'
          exact Res.noConfusion h'
      | ref r =>
        exact c2_setValues_ok _ _ _ _ none _ _ _ hobs hrc hval hperr hcerr
          (fun m hm => Option.noConfusion hm) _ h
    | some eo =>
      cases eo with
      | none =>
        have h' : Res.exn "errors is null, use undefined to not set any errors" = .ok w' := h
        exact Res.noConfusion h'
      | some m =>
        have hm : errOkB m = true := hgoodc
        cases v with
        | prim p =>
          have h' : setValuesD (kindToRes (exec nf)) w t (.prim p) (some (some m)) d st sk = .ok w' := h
          simp only [setValuesD] at h'
          by_cases hf : jsFalsy (.prim p) = true
          · rw [if_pos hf] at h'
            exact Res.noConfusion h'
          · rw [if_neg hf] at h'
            exact Res.noConfusion h'
        | ref r =>
          exact c2_setValues_ok _ _ _ _ (some m) _ _ _ hobs hrc hval hperr hcerr
            (fun m' hm' => by injection hm' with hh; rw [← hh]; exact hm) _ h
  | setErrors t e s =>
    have h' : setErrorsD (kindToRes (exec nf)) w t e s = .ok w' := h
    rcases setErrorsD_obs (kindToRes (exec nf)) w t e s hobs hrc with hcase | ⟨c', hcase⟩
    · rw [hcase] at h'
      injection h' with h3
      rw [← h3]
      exact ⟨hperr, hcerr⟩
    · rw [hcase] at h'
      injection h' with h3
      rw [← h3]
      have harg : errOkB (errsArg w t e) = true := by
        cases e with
        | none => exact hval t _ _
        | some m => exact hgoodc
      cases t
      · exact ⟨harg, hcerr⟩
      · exact ⟨hperr, harg⟩
  | setError t key e =>
    simp [goodCall] at hgoodc
  | reset t v =>
    have hnil : ∀ (m' : ErrMap), some ([] : ErrMap) = some m' → errOkB m' = true := by
      intro m' hm'
      injection hm' with hh
      rw [← hh]
      rfl
    cases v with
    | none =>
      have h' : setValuesD (kindToRes (exec nf)) w t
          (.ref (nodeOf w t).defaultValuesRef) (some (some [])) true none none = .ok w' := h
      exact c2_setValues_ok _ _ _ _ (some []) _ _ _ hobs hrc hval hperr hcerr hnil _ h'
    | some x =>
      cases x with
      | ref rr =>
        have h' : setValuesD (kindToRes (exec nf)) w t (.ref rr)
            (some (some [])) true none none = .ok w' := h
        exact c2_setValues_ok _ _ _ _ (some []) _ _ _ hobs hrc hval hperr hcerr hnil _ h'
      | prim p =>
        by_cases hn : jsNullish (.prim p) = true
        · have h' : setValuesD (kindToRes (exec nf)) w t
              (if jsNullish (.prim p) then JsVal.ref (nodeOf w t).defaultValuesRef else .prim p)
              (some (some [])) true none none = .ok w' := h
          rw [if_pos hn] at h'
          exact c2_setValues_ok _ _ _ _ (some []) _ _ _ hobs hrc hval hperr hcerr hnil _ h'
        · have h' : setValuesD (kindToRes (exec nf)) w t
              (if jsNullish (.prim p) then JsVal.ref (nodeOf w t).defaultValuesRef else .prim p)
              (some (some [])) true none none = .ok w' := h
          rw [if_neg hn] at h'
          simp only [setValuesD] at h'
          by_cases hf : jsFalsy (.prim p) = true
          · rw [if_pos hf] at h'
            exact Res.noConfusion h'
          · rw [if_neg hf] at h'
            exact Res.noConfusion h'
  | remove i =>
    have h' : removeD (kindToRes (exec nf)) w i = .ok w' := h
    rw [removeD] at h'
    cases hheap : w.heap (nodeOf w .child).valuesRef with
    | obj fields =>
      rw [hheap] at h'
      exact Res.noConfusion h'
    | arr items =>
      rw [hheap] at h'
      have h'' : setValuesD (kindToRes (exec nf))
          (allocC w (.arr (items.eraseIdx i))).1 .child (.ref w.nextRef)
          (some (some (adel (nodeOf w .child).errors (toString i)))) false none none =
          .ok w' := h'
      exact c2_setValues_ok (kindToRes (exec nf)) (allocC w (.arr (items.eraseIdx i))).1
        .child w.nextRef (some (adel (nodeOf w .child).errors (toString i)))
        false none none hobs (fun _ _ _ => rfl)
        (fun t' r hp => by
          cases t' with
          | parent => exact hval .parent r hp
          | child => exact hval .child r hp)
        hperr hcerr
        (fun m' hm' => by
          injection hm' with hh
          rw [← hh]
          exact errOkB_adel _ _ hcerr) _ h''

/-- C2 witness: the amended invariant applied to a concrete `setValue` on
the sample world (whose child error map is non-trivially invariant-
satisfying). -/
theorem c2_witness :
    allObs sampleWorld = true ∧
    goodCall (.setValue .parent "a" (.prim (.num 9))) = true ∧
    errOkB sampleWorld.parent.errors = true ∧
    errOkB sampleWorld.child.errors = true ∧
    (errOkB ((exec 1 sampleWorld (.setValue .parent "a" (.prim (.num 9)))).world).parent.errors = true ∧
     errOkB ((exec 1 sampleWorld (.setValue .parent "a" (.prim (.num 9)))).world).child.errors = true) := by
  refine ⟨rfl, rfl, rfl, rfl, ?_⟩
  exact c2_errors_invariant 0 sampleWorld (.setValue .parent "a" (.prim (.num 9)))
    rfl rfl (fun t r hp => by cases t <;> rfl) rfl rfl _ rfl

/-! ## C8 — `ArrayField.remove(index)` -/

/-- C8: for a child node holding an ordered sequence, `remove(i)` allocates
a *new* array with the element at `i` spliced out, builds a new error map
with the entry keyed `toString i` deleted while every other key keeps its
original entry (no renumbering), hands both to `setValues`, and leaves the
previous values array unmutated on the heap. -/
theorem c8_remove_splices_copy (n : Nat) (w : World) (items : List JsVal) (i : Nat)
    (hobs : allObs w = true)
    (hitems : w.heap (nodeOf w .child).valuesRef = .arr items)
    (href : (nodeOf w .child).valuesRef ≠ w.nextRef)
    (w' : World) (h : exec (n + 1) w (.remove i) = .ok w') :
    (nodeOf w' .child).valuesRef = w.nextRef ∧
    w'.heap w.nextRef = .arr (items.eraseIdx i) ∧
    (nodeOf w' .child).errors = adel (nodeOf w .child).errors (toString i) ∧
    (∀ k, k ≠ toString i →
      aget (nodeOf w' .child).errors k = aget (nodeOf w .child).errors k) ∧
    w'.heap (nodeOf w .child).valuesRef = .arr items ∧
    exec (n + 1) w (.remove i) = setValuesD (kindToRes (exec n))
      (allocC w (.arr (items.eraseIdx i))).1 .child (.ref w.nextRef)
      (some (some (adel (nodeOf w .child).errors (toString i)))) false none none := by
  have hform : exec (n + 1) w (.remove i) = setValuesD (kindToRes (exec n))
      (allocC w (.arr (items.eraseIdx i))).1 .child (.ref w.nextRef)
      (some (some (adel (nodeOf w .child).errors (toString i)))) false none none := by
    show removeD (kindToRes (exec n)) w i = _
    rw [removeD, hitems]
    rfl
  have h'' : setValuesD (kindToRes (exec n))
      (allocC w (.arr (items.eraseIdx i))).1 .child (.ref w.nextRef)
      ((some (adel (nodeOf w .child).errors (toString i))).map some) false none none =
      .ok w' := by rw [hform] at h; exact h
  obtain ⟨c', hc⟩ := setValuesD_obs (kindToRes (exec n))
    (allocC w (.arr (items.eraseIdx i))).1 .child w.nextRef
    (some (adel (nodeOf w .child).errors (toString i))) false none none
    hobs (fun _ _ _ => rfl)
  rw [hc] at h''
  injection h'' with h3
  rw [← h3]
  refine ⟨rfl, ?_, rfl, ?_, ?_, hform⟩
  · show (if w.nextRef = w.nextRef then Container.arr (items.eraseIdx i)
      else w.heap w.nextRef) = .arr (items.eraseIdx i)
    simp
  · intro k hk
    show aget (adel (nodeOf w .child).errors (toString i)) k = _
    exact aget_adel_other _ _ _ (fun hh => hk hh.symm)
  · show (if (nodeOf w .child).valuesRef = w.nextRef
      then Container.arr (items.eraseIdx i)
      else w.heap (nodeOf w .child).valuesRef) = .arr items
    rw [if_neg href, hitems]

/-- C8 witness: `remove(1)` on the sample world's child `[1, 2, 3]` with
error map `{1: "bad"}` yields values `[1, 3]` at a fresh ref, error map
`{}`, and leaves `[1, 2, 3]` at the old ref. -/
theorem c8_witness :
    exec 1 sampleWorld (.remove 1) =
      .ok ((exec 1 sampleWorld (.remove 1)).world) ∧
    ((nodeOf ((exec 1 sampleWorld (.remove 1)).world) .child).valuesRef = 5 ∧
     ((exec 1 sampleWorld (.remove 1)).world).heap 5 =
       .arr [.prim (.num 1), .prim (.num 3)] ∧
     ((exec 1 sampleWorld (.remove 1)).world).heap 1 =
       .arr [.prim (.num 1), .prim (.num 2), .prim (.num 3)]) := by
  have h1 : exec 1 sampleWorld (.remove 1) =
      .ok ((exec 1 sampleWorld (.remove 1)).world) := rfl
  have h := c8_remove_splices_copy 0 sampleWorld
    [.prim (.num 1), .prim (.num 2), .prim (.num 3)] 1 rfl rfl (by decide) _ h1
  exact ⟨h1, h.1, h.2.1, h.2.2.2.2.1⟩

/-! ## C4 — dispatch snapshot semantics -/

/-- Callbacks that re-enter the interpreter (the composition-edge pair). -/
def isReentrant : LKind → Bool
  | .pushDown _ _ => true
  | .pushUp _ _ => true
  | _ => false

def nodeNoPush (n : NodeState) : Bool :=
  n.keyListeners.all (fun p => p.2.all (fun q => !isReentrant q.2)) &&
    n.anyListeners.all (fun q => !isReentrant q.2)

/-- No composition-edge callback anywhere: every listener is an observer or
a registry-editing callback, so no callback re-enters a setter. -/
def noPush (w : World) : Bool := nodeNoPush w.parent && nodeNoPush w.child

theorem and_true_intro {a b : Bool} (ha : a = true) (hb : b = true) :
    (a && b) = true := by rw [ha, hb]; rfl

theorem nodeNoPush_key_entry {n : NodeState} {key : String}
    {m : List (Nat × LKind)} {id : Nat} {k : LKind}
    (h : nodeNoPush n = true) (hm : aget n.keyListeners key = some m)
    (hk : aget m id = some k) : isReentrant k = false := by
  rw [nodeNoPush, Bool.and_eq_true] at h
  have h1 := List.all_eq_true.mp h.1 _ (aget_mem hm)
  have h2 := List.all_eq_true.mp h1 _ (aget_mem hk)
  simpa using h2

theorem nodeNoPush_any_entry {n : NodeState} {id : Nat} {k : LKind}
    (h : nodeNoPush n = true) (hk : aget n.anyListeners id = some k) :
    isReentrant k = false := by
  rw [nodeNoPush, Bool.and_eq_true] at h
  have h2 := List.all_eq_true.mp h.2 _ (aget_mem hk)
  simpa using h2

theorem nodeNoPush_listen {n : NodeState} {key : String} {id : Nat}
    (h : nodeNoPush n = true) :
    nodeNoPush { n with keyListeners := aset n.keyListeners key (((aget n.keyListeners key).getD []) ++ [(id, LKind.obs)]) } = true := by
  rw [nodeNoPush, Bool.and_eq_true] at h ⊢
  refine ⟨List.all_eq_true.mpr ?_, h.2⟩
  intro p hp
  rcases mem_aset hp with hp | hp
  · exact List.all_eq_true.mp h.1 _ hp
  · rw [hp]
    rw [List.all_eq_true]
    intro q hq
    rw [List.mem_append] at hq
    rcases hq with hq | hq
    · cases hold : aget n.keyListeners key with
      | none => rw [hold] at hq; simp at hq
      | some m =>
        rw [hold] at hq
        have := List.all_eq_true.mp (List.all_eq_true.mp h.1 _ (aget_mem hold)) _ hq
        exact this
    · rw [List.mem_singleton] at hq
      rw [hq]
      rfl

theorem nodeNoPush_ignore {n : NodeState} {key : String} {id : Nat}
    {m : List (Nat × LKind)} (h : nodeNoPush n = true)
    (hm : aget n.keyListeners key = some m) :
    nodeNoPush { n with keyListeners := aset n.keyListeners key (adel m id) } = true := by
  rw [nodeNoPush, Bool.and_eq_true] at h ⊢
  refine ⟨List.all_eq_true.mpr ?_, h.2⟩
  intro p hp
  rcases mem_aset hp with hp | hp
  · exact List.all_eq_true.mp h.1 _ hp
  · rw [hp]
    rw [List.all_eq_true]
    intro q hq
    exact List.all_eq_true.mp (List.all_eq_true.mp h.1 _ (aget_mem hm)) _ (mem_adel hq)

theorem nodeNoPush_ignoreAny {n : NodeState} {id : Nat} (h : nodeNoPush n = true) :
    nodeNoPush { n with anyListeners := adel n.anyListeners id } = true := by
  rw [nodeNoPush, Bool.and_eq_true] at h ⊢
  refine ⟨h.1, List.all_eq_true.mpr ?_⟩
  intro q hq
  exact List.all_eq_true.mp h.2 _ (mem_adel hq)

theorem noPush_listenW (w : World) (t : Target) (key : String) (cb : LKind)
    (hcb : cb = LKind.obs) (h : noPush w = true) :
    noPush (listenW w t key cb).1 = true := by
  subst hcb
  rw [noPush, Bool.and_eq_true] at h
  cases t
  · exact and_true_intro (nodeNoPush_listen h.1) h.2
  · exact and_true_intro h.1 (nodeNoPush_listen h.2)

theorem noPush_ignoreW (w : World) (t : Target) (key : String) (id : Nat)
    (h : noPush w = true) : noPush (ignoreW w t key id) = true := by
  rw [noPush, Bool.and_eq_true] at h
  rw [ignoreW]
  cases t
  · cases hm : aget (nodeOf w Target.parent).keyListeners key with
    | none => exact and_true_intro h.1 h.2
    | some m => exact and_true_intro (nodeNoPush_ignore h.1 hm) h.2
  · cases hm : aget (nodeOf w Target.child).keyListeners key with
    | none => exact and_true_intro h.1 h.2
    | some m => exact and_true_intro h.1 (nodeNoPush_ignore h.2 hm)

theorem noPush_ignoreAnyW (w : World) (t : Target) (id : Nat)
    (h : noPush w = true) : noPush (ignoreAnyW w t id) = true := by
  rw [noPush, Bool.and_eq_true] at h
  cases t
  · exact and_true_intro (nodeNoPush_ignoreAny h.1) h.2
  · exact and_true_intro h.1 (nodeNoPush_ignoreAny h.2)

theorem bumpCount_counts_other (w : World) (id j : Nat) (h : j ≠ id) :
    (bumpCount w id).counts j = w.counts j := by
  rw [bumpCount]
  simp [h]

theorem noPush_bumpCount (w : World) (id : Nat) (h : noPush w = true) :
    noPush (bumpCount w id) = true := h

/-- On a no-push world, `kindToRes` never re-enters: whatever callback the
live map yields, a successful run preserves no-pushness and bumps only the
invoked id. -/
theorem kindToRes_nopush (ex : World → Call → Res) (w : World) (id : Nat)
    (k : LKind) (b : Bool) (hk : isReentrant k = false) (h : noPush w = true)
    (r : World) (hr : kindToRes ex w id k b = .ok r) :
    noPush r = true ∧ ∀ j, j ≠ id → r.counts j = w.counts j := by
  cases k with
  | obs =>
    injection hr with hr2
    rw [← hr2]
    exact ⟨noPush_bumpCount w id h, fun j hj => bumpCount_counts_other w id j hj⟩
  | regKeyObs t key =>
    injection hr with hr2
    rw [← hr2]
    refine ⟨noPush_listenW (bumpCount w id) t key .obs rfl (noPush_bumpCount w id h), ?_⟩
    intro j hj
    have : (listenW (bumpCount w id) t key .obs).1.counts j = (bumpCount w id).counts j := by
      cases t <;> rfl
    rw [this]
    exact bumpCount_counts_other w id j hj
  | unregKey t key i =>
    injection hr with hr2
    rw [← hr2]
    refine ⟨noPush_ignoreW (bumpCount w id) t key i (noPush_bumpCount w id h), ?_⟩
    intro j hj
    have : (ignoreW (bumpCount w id) t key i).counts j = (bumpCount w id).counts j := by
      rw [ignoreW]
      cases t <;>
      · cases aget (nodeOf (bumpCount w id) _).keyListeners key <;> rfl
    rw [this]
    exact bumpCount_counts_other w id j hj
  | unregAny t i =>
    injection hr with hr2
    rw [← hr2]
    refine ⟨noPush_ignoreAnyW (bumpCount w id) t i (noPush_bumpCount w id h), ?_⟩
    intro j hj
    have : (ignoreAnyW (bumpCount w id) t i).counts j = (bumpCount w id).counts j := by
      cases t <;> rfl
    rw [this]
    exact bumpCount_counts_other w id j hj
  | pushDown name s => simp [isReentrant] at hk
  | pushUp name s => simp [isReentrant] at hk

/-- Dispatch on a no-push world: whatever registry edits the callbacks
perform, a successful dispatch bumps only ids of its start snapshot — ids
not in the snapshot (in particular ids registered during the dispatch) are
never invoked in-flight. -/
theorem dispatch_nopush_outside (live : World → List (Nat × LKind))
    (run : World → Nat → LKind → Res) (skip : Option Nat)
    (hrun : ∀ w id k, noPush w = true → aget (live w) id = some k →
      ∀ r, run w id k = .ok r →
        noPush r = true ∧ ∀ j, j ≠ id → r.counts j = w.counts j) :
    ∀ (ids : List Nat) (w w' : World), noPush w = true →
      dispatchIds live run skip ids w = .ok w' →
      noPush w' = true ∧ ∀ j, j ∉ ids → w'.counts j = w.counts j := by
  intro ids
  induction ids with
  | nil =>
    intro w w' hnp h
    rw [dispatchIds] at h
    injection h with h2
    rw [← h2]
    exact ⟨hnp, fun j _ => rfl⟩
  | cons id rest ih =>
    intro w w' hnp h
    rw [dispatchIds] at h
    by_cases hskip : skip = some id
    · rw [if_pos hskip] at h
      obtain ⟨hh1, hh2⟩ := ih w w' hnp h
      exact ⟨hh1, fun j hj => hh2 j (fun hm => hj (List.mem_cons_of_mem _ hm))⟩
    · rw [if_neg hskip] at h
      cases hk : aget (live w) id with
      | none =>
        rw [hk] at h
        exact Res.noConfusion h
      | some k =>
        rw [hk] at h
        cases hr : run w id k with
        | ok w1 =>
          simp only [hr] at h
          obtain ⟨hp1, hp2⟩ := hrun w id k hnp hk w1 hr
          obtain ⟨hq1, hq2⟩ := ih w1 w' hp1 h
          refine ⟨hq1, ?_⟩
          intro j hj
          have hjid : j ≠ id := fun hh => hj (hh ▸ List.mem_cons_self _ _)
          have hjrest : j ∉ rest := fun hh => hj (List.mem_cons_of_mem _ hh)
          rw [hq2 j hjrest, hp2 j hjid]
        | exn m =>
          simp only [hr] at h
          exact Res.noConfusion h
        | fuelOut =>
          simp only [hr] at h
          exact Res.noConfusion h

/-- Dispatch over a duplicate-free all-observer snapshot: it succeeds and
bumps each non-skipped snapshot id exactly once, every other counter
unchanged. -/
theorem dispatch_obs_exact (live : World → List (Nat × LKind))
    (run : World → Nat → LKind → Res) (skip : Option Nat) (w0 : World)
    (hlive : ∀ c, live { w0 with counts := c } = live w0)
    (hobs : ∀ p ∈ live w0, p.2 = LKind.obs)
    (hrun : ∀ w id, run w id .obs = .ok (bumpCount w id)) :
    ∀ (ids : List Nat) (c : Nat → Nat),
      (∀ id ∈ ids, (aget (live w0) id).isSome) → ids.Nodup →
      ∃ c', dispatchIds live run skip ids { w0 with counts := c } =
          .ok { w0 with counts := c' } ∧
        ∀ j, c' j = c j + (if j ∈ ids ∧ skip ≠ some j then 1 else 0) := by
  intro ids
  induction ids with
  | nil =>
    intro c _ _
    exact ⟨c, rfl, fun j => by simp⟩
  | cons id rest ih =>
    intro c hin hnd
    rw [dispatchIds]
    by_cases hskip : skip = some id
    · rw [if_pos hskip]
      obtain ⟨c', hc', hcf⟩ := ih c (fun i hi => hin i (List.mem_cons_of_mem _ hi))
        hnd.of_cons
      refine ⟨c', hc', ?_⟩
      intro j
      rw [hcf j]
      by_cases hj : j = id
      · subst hj
        simp [hskip]
      · simp [List.mem_cons, hj]
    · rw [if_neg hskip, hlive]
      have hsome := hin id (List.mem_cons_self _ _)
      cases hk : aget (live w0) id with
      | none =>
        rw [hk] at hsome
        simp at hsome
      | some k =>
        have hkobs : k = LKind.obs := hobs _ (aget_mem hk)
        subst hkobs
        simp only [hrun, bumpCount_counts]
        obtain ⟨c', hc', hcf⟩ := ih (fun i => if i = id then c i + 1 else c i)
          (fun i hi => hin i (List.mem_cons_of_mem _ hi)) hnd.of_cons
        refine ⟨c', hc', ?_⟩
        intro j
        rw [hcf j]
        by_cases hj : j = id
        · subst hj
          have hjrest : j ∉ rest := (List.nodup_cons.mp hnd).1
          simp [hjrest, hskip]
        · simp [hj, List.mem_cons]

/-- A world whose parent key `"a"` dispatch list contains a callback (id 20)
that unregisters the not-yet-invoked listener 21 of the same dispatch. -/
def c4World : World :=
  { sampleWorld with parent := { sampleWorld.parent with
      keyListeners := [("a", [(20, .unregKey .parent "a" 21), (21, .obs)])] } }

/-- A world whose parent key `"a"` dispatch list contains a callback (id 20)
that registers a fresh listener on the same key during dispatch. -/
def c4RegWorld : World :=
  { sampleWorld with parent := { sampleWorld.parent with
      keyListeners := [("a", [(20, .regKeyObs .parent "a"), (21, .obs)])] } }

/-- C4 counterexample: the claim says an unregistration performed by a
callback during dispatch "never changes (or breaks) delivery within the
in-flight dispatch".  With listener 21 registered (and a plain observer) at
dispatch start, a callback that unregisters 21 mid-dispatch makes the
dispatch throw a `TypeError` (the snapshot id is looked up in the live map
and called even though it is gone) instead of completing delivery. -/
theorem c4_unreg_breaks_counterexample :
    aget ((aget c4World.parent.keyListeners "a").getD []) 21 = some LKind.obs ∧
    exec 1 c4World (.unsetValue .parent "a") =
      .exn "TypeError: listener is not a function" :=
  ⟨rfl, rfl⟩

/-- C4 (amended): `fireListener` snapshots the registered ids at the start
of the call. First conjunct (any world without composition-edge callbacks,
arbitrary registry edits in-flight): ids outside the start snapshot —
including any id registered by a callback during the dispatch — are never
invoked within the in-flight dispatch. Second conjunct (all-observer
world): dispatch delivers exactly once to every non-skipped snapshot id.
However a callback that unregisters a not-yet-invoked snapshot id makes
the in-flight dispatch throw (see the counterexample), so "never breaks
delivery" does not hold. -/
theorem c4_dispatch_snapshot (n : Nat) (w : World) (t : Target) (key : String)
    (d : Bool) (skip : Option Nat) (w' : World)
    (h : fireListenerD (kindToRes (exec n)) w t key d skip = .ok w') :
    (noPush w = true →
      ∀ j, j ∉ ((aget (nodeOf w t).keyListeners key).getD []).map Prod.fst →
        w'.counts j = w.counts j) ∧
    (allObs w = true →
      (((aget (nodeOf w t).keyListeners key).getD []).map Prod.fst).Nodup →
      ∀ j, w'.counts j = w.counts j +
        (if j ∈ ((aget (nodeOf w t).keyListeners key).getD []).map Prod.fst ∧
            skip ≠ some j then 1 else 0)) := by
  constructor
  · intro hnp j hj
    rw [fireListenerD] at h
    cases hm : aget (nodeOf w t).keyListeners key with
    | none =>
      rw [hm] at h
      injection h with h2
      rw [← h2]
    | some m =>
      rw [hm] at h
      have hrun : ∀ w0 id k, noPush w0 = true →
          aget ((aget (nodeOf w0 t).keyListeners key).getD []) id = some k →
          ∀ r, (fun w1 id1 k1 => kindToRes (exec n) w1 id1 k1 d) w0 id k = .ok r →
            noPush r = true ∧ ∀ i, i ≠ id → r.counts i = w0.counts i := by
        intro w0 id k hnp0 hk r hr
        have hknp : isReentrant k = false := by
          cases hmm : aget (nodeOf w0 t).keyListeners key with
          | none =>
            rw [hmm] at hk
            exact absurd hk (by simp [aget])
          | some mm =>
            rw [hmm] at hk
            rw [noPush, Bool.and_eq_true] at hnp0
            cases t
            · exact nodeNoPush_key_entry hnp0.1 hmm hk
            · exact nodeNoPush_key_entry hnp0.2 hmm hk
        exact kindToRes_nopush (exec n) w0 id k d hknp hnp0 r hr
      have hmain := dispatch_nopush_outside
        (fun w1 => (aget (nodeOf w1 t).keyListeners key).getD [])
        (fun w1 id1 k1 => kindToRes (exec n) w1 id1 k1 d) skip hrun
        (m.map Prod.fst) w w' hnp (by simpa using h)
      have hj2 : j ∉ m.map Prod.fst := by
        rw [hm] at hj
        simpa using hj
      exact hmain.2 j hj2
  · intro hobs hnd j
    rw [fireListenerD] at h
    cases hm : aget (nodeOf w t).keyListeners key with
    | none =>
      rw [hm] at h
      injection h with h2
      rw [← h2]
      simp
    | some m =>
      rw [hm] at h
      have hnode : nodeObs (nodeOf w t) = true := by
        rw [allObs, Bool.and_eq_true] at hobs
        cases t
        · exact hobs.1
        · exact hobs.2
      have hall : ∀ p ∈ ((aget (nodeOf w t).keyListeners key).getD []), p.2 = LKind.obs := by
        intro p hp
        rw [hm] at hp
        rw [nodeObs, Bool.and_eq_true] at hnode
        have h1 := List.all_eq_true.mp hnode.1 _ (aget_mem hm)
        have h2 := List.all_eq_true.mp h1 _ (by simpa using hp)
        cases hpk : p.2 <;> simp [isObs, hpk] at h2 ⊢
      have hmain := dispatch_obs_exact
        (fun w1 => (aget (nodeOf w1 t).keyListeners key).getD [])
        (fun w1 id1 k1 => kindToRes (exec n) w1 id1 k1 d) skip w
        (fun c => by simp only [nodeOf_counts])
        hall
        (fun w1 id1 => rfl)
        (m.map Prod.fst) w.counts
        (by
          intro id hid
          show (aget ((aget (nodeOf w t).keyListeners key).getD []) id).isSome = true
          rw [hm]
          simpa using aget_isSome_of_mem hid)
        (by simpa [hm] using hnd)
      obtain ⟨c', hc', hcf⟩ := hmain
      have h2 : dispatchIds (fun w1 => (aget (nodeOf w1 t).keyListeners key).getD [])
          (fun w1 id1 k1 => kindToRes (exec n) w1 id1 k1 d) skip (m.map Prod.fst)
          { w with counts := w.counts } = .ok w' := h
      rw [hc'] at h2
      injection h2 with h3
      rw [← h3]
      simpa using hcf j

/-- C4 witness: first conjunct on a world whose dispatch registers a fresh
listener (the fresh id 30 is not invoked in-flight); second conjunct on the
all-observer sample world (the snapshot id 20 is delivered exactly once). -/
theorem c4_witness :
    (fireListenerD (kindToRes (exec 0)) c4RegWorld .parent "a" false none =
      .ok ((fireListenerD (kindToRes (exec 0)) c4RegWorld .parent "a" false none).world) ∧
     noPush c4RegWorld = true ∧
     (30 : Nat) ∉ ((aget (nodeOf c4RegWorld .parent).keyListeners "a").getD []).map Prod.fst ∧
     ((fireListenerD (kindToRes (exec 0)) c4RegWorld .parent "a" false none).world).counts 30 =
       c4RegWorld.counts 30) ∧
    (fireListenerD (kindToRes (exec 0)) sampleWorld .parent "a" false none =
      .ok ((fireListenerD (kindToRes (exec 0)) sampleWorld .parent "a" false none).world) ∧
     allObs sampleWorld = true ∧
     ((fireListenerD (kindToRes (exec 0)) sampleWorld .parent "a" false none).world).counts 20 =
       sampleWorld.counts 20 + 1) := by
  have h1 : fireListenerD (kindToRes (exec 0)) c4RegWorld .parent "a" false none =
      .ok ((fireListenerD (kindToRes (exec 0)) c4RegWorld .parent "a" false none).world) := rfl
  have h2 : fireListenerD (kindToRes (exec 0)) sampleWorld .parent "a" false none =
      .ok ((fireListenerD (kindToRes (exec 0)) sampleWorld .parent "a" false none).world) := rfl
  refine ⟨⟨h1, rfl, by decide, ?_⟩, ⟨h2, rfl, ?_⟩⟩
  · exact (c4_dispatch_snapshot 0 c4RegWorld .parent "a" false none _ h1).1 rfl 30 (by decide)
  · have := (c4_dispatch_snapshot 0 sampleWorld .parent "a" false none _ h2).2 rfl (by decide) 20
    simpa using this

/-! ## C1 / C9 — the `useChildForm` composition edge -/

theorem fireListenerD_nil (rc : Runner) (w : World) (t : Target) (key : String)
    (d : Bool) (skip : Option Nat) (h : (nodeOf w t).keyListeners = []) :
    fireListenerD rc w t key d skip = .ok w := by
  rw [fireListenerD, h]
  rfl

theorem forKeys_id (fire : World → String → Res) (w : World)
    (hfire : ∀ k, fire w k = .ok w) : ∀ ks, forKeys fire ks w = .ok w := by
  intro ks
  induction ks with
  | nil => rfl
  | cons k rest ih =>
    rw [forKeys, hfire]
    exact ih

/-- A node with no per-key listeners: `fireAllNormalListeners` is a no-op
whatever the value keys are. -/
theorem fireAllD_nil (rc : Runner) (w : World) (t : Target) (d : Bool)
    (skip : Option Nat) (h : (nodeOf w t).keyListeners = []) :
    fireAllD rc w t d skip = .ok w := by
  rw [fireAllD]
  exact forKeys_id _ _ (fun k => fireListenerD_nil rc w t k d skip h) _

/-- The two-node world right after `useChildForm` has wired the Composition
Edge: the parent's field `name` holds the child's container (ref 1, contents
`cc`), the parent registered the push-down listener (id 10, skipping 11)
plus a UI observer (id 12), the child registered the push-up any-listener
(id 11, skipping 10), the parent an any-observer (id 13); ref 2 holds a
spare container used as a fresh parent-originated value; validators are the
source default `() => ({})`. -/
def wiredWorld (name : String) (pf : List (String × JsVal))
    (pdef cc cdef pnc : Container) (perr cerr : ErrMap)
    (pdirty cdirty : List (String × Bool)) : World :=
  { parent := { valuesRef := 0, defaultValuesRef := 3, dirty := pdirty, errors := perr,
                keyListeners := [(name, [(10, .pushDown name 11), (12, .obs)])],
                anyListeners := [(13, .obs)],
                validate := fun _ _ => [], isSubmitting := false },
    child := { valuesRef := 1, defaultValuesRef := 4, dirty := cdirty, errors := cerr,
               keyListeners := [], anyListeners := [(11, .pushUp name 10)],
               validate := fun _ _ => [], isSubmitting := false },
    heap := fun r =>
      if r = 0 then .obj pf else if r = 1 then cc
      else if r = 2 then pnc else if r = 3 then pdef else cdef,
    nextRef := 5, currentId := 14, counts := fun _ => 0 }

theorem aget_cons_self {α : Type} (k : String) (v : α) (rest : List (String × α)) :
    aget ((k, v) :: rest) k = some v := by
  rw [aget]
  simp

/-- `setValueInternal` is its pure transformation followed by the two
dispatch phases. -/
theorem setValueInternalD_eq (rc : Runner) (w : World) (t : Target) (key : String)
    (v : JsVal) (d : Bool) (e : Option (Option ErrVal)) (s : Option Nat) :
    setValueInternalD rc w t key v d e s =
      match fireListenerD rc (setValueInternalPure w t key v d e) t key false s with
      | .ok w3 => fireAnyD rc w3 t false s
      | r => r := rfl

theorem dispatchIds_cons_skip (live : World → List (Nat × LKind))
    (run : World → Nat → LKind → Res) (skip : Option Nat) (id : Nat)
    (rest : List Nat) (w : World) (hskip : skip = some id) :
    dispatchIds live run skip (id :: rest) w = dispatchIds live run skip rest w := by
  rw [dispatchIds, if_pos hskip]

theorem dispatchIds_cons_run (live : World → List (Nat × LKind))
    (run : World → Nat → LKind → Res) (skip : Option Nat) (id : Nat)
    (rest : List Nat) (w : World) (k : LKind)
    (hskip : ¬skip = some id) (hk : aget (live w) id = some k) :
    dispatchIds live run skip (id :: rest) w =
      match run w id k with
      | .ok w1 => dispatchIds live run skip rest w1
      | r => r := by
  rw [dispatchIds, if_neg hskip, hk]

/-- `setValues` on a child whose only listener is the skipped any-listener:
no callback runs at all, the result is the pure transformation. -/
theorem setValuesD_skip_only (rc : Runner) (w : World) (r : Nat) (em : ErrMap)
    (st : Option Bool) (cid : Nat)
    (hkey : (nodeOf w .child).keyListeners = [])
    (hany : (nodeOf w .child).anyListeners.map (fun q => q.1) = [cid]) :
    setValuesD rc w .child (.ref r) (some (some em)) false st (some cid) =
      .ok (setValuesPure w .child r (some em) false st) := by
  have h1 : fireAllD rc (setValuesPre w .child r (some em) false st) .child false (some cid) =
      .ok (setValuesPre w .child r (some em) false st) :=
    fireAllD_nil _ _ _ _ _ hkey
  show (match fireAllD rc (setValuesPre w .child r (some em) false st) .child false (some cid) with
    | .ok w3 => fireAnyD rc (recalcDirty w3 .child) .child true (some cid)
    | res => res) = _
  rw [h1]
  show fireAnyD rc (recalcDirty (setValuesPre w .child r (some em) false st) .child)
    .child true (some cid) = _
  rw [fireAnyD]
  have hl : (nodeOf (recalcDirty (setValuesPre w .child r (some em) false st) .child)
      .child).anyListeners.map (fun q => q.1) = [cid] := hany
  rw [hl]
  rw [dispatchIds, if_pos rfl]
  rfl

/-- A child-originated update through the wired Composition Edge: the child
`setValue` fires the push-up any-listener (id 11) exactly once, which
updates the parent with the skip id 10 so the push-down listener never
re-fires; the parent's per-key observer (12) and any-observer (13) each
fire exactly once, dispatch terminates, and the parent's field ends up
holding the same container object (ref 1) as the child's `values`. -/
theorem wired_child_flow (n : Nat) (name ck : String) (cv : JsVal)
    (pf : List (String × JsVal)) (pdef cc cdef pnc : Container) (perr cerr : ErrMap)
    (pdirty cdirty : List (String × Bool))
    (hg : jsEq (cget cc ck) cv = false) :
    ∃ wfin, exec (n + 2) (wiredWorld name pf pdef cc cdef pnc perr cerr pdirty cdirty)
        (.setValue .child ck cv) = .ok wfin ∧
      wfin.counts 10 = 0 ∧ wfin.counts 11 = 1 ∧ wfin.counts 12 = 1 ∧ wfin.counts 13 = 1 ∧
      (nodeOf wfin .child).valuesRef = 1 ∧
      cget (wfin.heap (nodeOf wfin .parent).valuesRef) name = .ref 1 := by
  set w0 := wiredWorld name pf pdef cc cdef pnc perr cerr pdirty cdirty with hw0
  have ha : jsEq (cget (w0.heap (nodeOf w0 .child).valuesRef) ck) cv = false := hg
  set w2 := setValueInternalPure w0 .child ck cv
    (!jsEq (cget (w0.heap (nodeOf w0 .child).defaultValuesRef) ck) cv) none with hw2
  set w3 := bumpCount w2 11 with hw3
  set w4 := setValueInternalPure w3 .parent name (.ref 1) (isDirtyW w3 .child)
    (some (some (.map []))) with hw4
  have hm4 : aget (nodeOf w4 .parent).keyListeners name =
      some [(10, .pushDown name 11), (12, .obs)] := aget_cons_self _ _ _
  have hmain : exec (n + 2) w0 (.setValue .child ck cv) =
      .ok (bumpCount (bumpCount w4 12) 13) := by
    show setValueD (kindToRes (exec (n + 1))) w0 .child ck cv = _
    simp only [setValueD, ha, Bool.false_eq_true, if_false]
    rw [setValueInternalD_eq]
    rw [← hw2]
    rw [fireListenerD_nil (kindToRes (exec (n + 1))) w2 .child ck false none rfl]
    show fireAnyD (kindToRes (exec (n + 1))) w2 .child false none = _
    rw [fireAnyD]
    show dispatchIds (fun w' => (nodeOf w' .child).anyListeners)
      (fun w' id k => kindToRes (exec (n + 1)) w' id k false) none [11] w2 = _
    rw [dispatchIds_cons_run (fun w' => (nodeOf w' .child).anyListeners)
      (fun w' id k => kindToRes (exec (n + 1)) w' id k false) none 11 [] w2
      (.pushUp name 10) (by simp) rfl]
    show (match setValueInternalD (kindToRes (exec n)) w3 .parent name (.ref 1)
        (isDirtyW w3 .child) (some (some (.map []))) (some 10) with
      | .ok w1 => dispatchIds (fun w' => (nodeOf w' .child).anyListeners)
          (fun w' id k => kindToRes (exec (n + 1)) w' id k false) none [] w1
      | r => r) = _
    rw [setValueInternalD_eq]
    rw [← hw4]
    rw [fireListenerD, hm4]
    show (match (match dispatchIds (fun w' => (aget (nodeOf w' .parent).keyListeners name).getD [])
          (fun w' id k => kindToRes (exec n) w' id k false) (some 10) [10, 12] w4 with
        | .ok w5 => fireAnyD (kindToRes (exec n)) w5 .parent false (some 10)
        | r => r) with
      | .ok w1 => dispatchIds (fun w' => (nodeOf w' .child).anyListeners)
          (fun w' id k => kindToRes (exec (n + 1)) w' id k false) none [] w1
      | r => r) = _
    rw [dispatchIds_cons_skip _ _ _ _ _ _ rfl]
    rw [dispatchIds_cons_run (fun w' => (aget (nodeOf w' .parent).keyListeners name).getD [])
      (fun w' id k => kindToRes (exec n) w' id k false) (some 10) 12 [] w4
      .obs (by decide)
      (by
        show aget ((aget (nodeOf w4 .parent).keyListeners name).getD []) 12 = some LKind.obs
        rw [hm4]
        rfl)]
    rfl
  refine ⟨bumpCount (bumpCount w4 12) 13, hmain, rfl, rfl, rfl, rfl, rfl, ?_⟩
  show cget (Container.obj (aset pf name (JsVal.ref 1))) name = JsVal.ref 1
  rw [cget, aget_aset_same]
  rfl

theorem wired_parent_flow (n : Nat) (name : String)
    (pf : List (String × JsVal)) (pdef cc cdef pnc : Container) (perr cerr : ErrMap)
    (pdirty cdirty : List (String × Bool))
    (hpf : aget pf name = some (.ref 1)) :
    ∃ wfin, exec (n + 2) (wiredWorld name pf pdef cc cdef pnc perr cerr pdirty cdirty)
        (.setValue .parent name (.ref 2)) = .ok wfin ∧
      wfin.counts 10 = 1 ∧ wfin.counts 11 = 0 ∧ wfin.counts 12 = 1 ∧ wfin.counts 13 = 1 ∧
      (nodeOf wfin .child).valuesRef = 2 := by
  set w0 := wiredWorld name pf pdef cc cdef pnc perr cerr pdirty cdirty with hw0
  have ha : jsEq (cget (w0.heap (nodeOf w0 .parent).valuesRef) name) (.ref 2) = false := by
    show jsEq (cget (Container.obj pf) name) (.ref 2) = false
    rw [cget, hpf]
    rfl
  set w2 := setValueInternalPure w0 .parent name (.ref 2)
    (!jsEq (cget (w0.heap (nodeOf w0 .parent).defaultValuesRef) name) (.ref 2)) none with hw2
  have hm2 : aget (nodeOf w2 .parent).keyListeners name =
      some [(10, .pushDown name 11), (12, .obs)] := aget_cons_self _ _ _
  set w3 := bumpCount w2 10 with hw3
  set w4 := setValuesPure w3 .child 2 (some []) false (some false) with hw4
  have hm4 : aget (nodeOf w4 .parent).keyListeners name =
      some [(10, .pushDown name 11), (12, .obs)] := aget_cons_self _ _ _
  have hmain : exec (n + 2) w0 (.setValue .parent name (.ref 2)) =
      .ok (bumpCount (bumpCount w4 12) 13) := by
    show setValueD (kindToRes (exec (n + 1))) w0 .parent name (.ref 2) = _
    simp only [setValueD, ha, Bool.false_eq_true, if_false]
    rw [setValueInternalD_eq]
    rw [← hw2]
    rw [fireListenerD, hm2]
    show (match dispatchIds (fun w' => (aget (nodeOf w' .parent).keyListeners name).getD [])
        (fun w' id k => kindToRes (exec (n + 1)) w' id k false) none [10, 12] w2 with
      | .ok w5 => fireAnyD (kindToRes (exec (n + 1))) w5 .parent false none
      | r => r) = _
    rw [dispatchIds_cons_run (fun w' => (aget (nodeOf w' .parent).keyListeners name).getD [])
      (fun w' id k => kindToRes (exec (n + 1)) w' id k false) none 10 [12] w2
      (.pushDown name 11) (by simp)
      (by
        show aget ((aget (nodeOf w2 .parent).keyListeners name).getD []) 10 =
          some (LKind.pushDown name 11)
        rw [hm2]
        rfl)]
    have harg : cget (w3.heap w3.parent.valuesRef) name = JsVal.ref 2 := by
      show cget (Container.obj (aset pf name (JsVal.ref 2))) name = JsVal.ref 2
      rw [cget, aget_aset_same]
      rfl
    show (match (match exec (n + 1) w3 (.setValues .child (cget (w3.heap w3.parent.valuesRef) name)
          (some (some ([] : ErrMap))) false (some false) (some 11)) with
        | .ok w1 => dispatchIds (fun w' => (aget (nodeOf w' .parent).keyListeners name).getD [])
            (fun w' id k => kindToRes (exec (n + 1)) w' id k false) none [12] w1
        | r => r) with
      | .ok w5 => fireAnyD (kindToRes (exec (n + 1))) w5 .parent false none
      | r => r) = _
    rw [harg]
    show (match (match setValuesD (kindToRes (exec n)) w3 .child (.ref 2)
          (some (some ([] : ErrMap))) false (some false) (some 11) with
        | .ok w1 => dispatchIds (fun w' => (aget (nodeOf w' .parent).keyListeners name).getD [])
            (fun w' id k => kindToRes (exec (n + 1)) w' id k false) none [12] w1
        | r => r) with
      | .ok w5 => fireAnyD (kindToRes (exec (n + 1))) w5 .parent false none
      | r => r) = _
    rw [setValuesD_skip_only (kindToRes (exec n)) w3 2 [] (some false) 11 rfl rfl]
    rw [← hw4]
    show (match dispatchIds (fun w' => (aget (nodeOf w' .parent).keyListeners name).getD [])
        (fun w' id k => kindToRes (exec (n + 1)) w' id k false) none [12] w4 with
      | .ok w5 => fireAnyD (kindToRes (exec (n + 1))) w5 .parent false none
      | r => r) = _
    rw [dispatchIds_cons_run (fun w' => (aget (nodeOf w' .parent).keyListeners name).getD [])
      (fun w' id k => kindToRes (exec (n + 1)) w' id k false) none 12 [] w4
      .obs (by simp)
      (by
        show aget ((aget (nodeOf w4 .parent).keyListeners name).getD []) 12 = some LKind.obs
        rw [hm4]
        rfl)]
    rfl
  exact ⟨bumpCount (bumpCount w4 12) 13, hmain, rfl, rfl, rfl, rfl, rfl⟩

/-- C1: in the wired parent/child configuration (push-down key listener
id 10 skipping 11, push-up any-listener id 11 skipping 10, a parent per-key
UI observer id 12), a single parent-originated update of the composed field
pushes into the child exactly once (10 fires once), the child's any-change
callback never pushes back for that change (11 never fires), and
symmetrically a single child-originated update fires the push-up exactly
once (11 once), never re-triggers the push-down (10 zero), and the parent's
per-key listener for the field fires exactly once, not twice (12 once);
both dispatches terminate (a successful result at every fuel `n + 2`). -/
theorem c1_composition_edge_no_loop (n : Nat) (name : String)
    (pf : List (String × JsVal)) (pdef cc cdef pnc : Container) (perr cerr : ErrMap)
    (pdirty cdirty : List (String × Bool))
    (hpf : aget pf name = some (.ref 1)) :
    (∃ wfin, exec (n + 2) (wiredWorld name pf pdef cc cdef pnc perr cerr pdirty cdirty)
        (.setValue .parent name (.ref 2)) = .ok wfin ∧
      wfin.counts 10 = 1 ∧ wfin.counts 11 = 0 ∧ wfin.counts 12 = 1) ∧
    (∀ ck cv, jsEq (cget cc ck) cv = false →
      ∃ wfin, exec (n + 2) (wiredWorld name pf pdef cc cdef pnc perr cerr pdirty cdirty)
          (.setValue .child ck cv) = .ok wfin ∧
        wfin.counts 11 = 1 ∧ wfin.counts 10 = 0 ∧ wfin.counts 12 = 1) := by
  constructor
  · obtain ⟨w, h1, h2, h3, h4, h5, h6⟩ :=
      wired_parent_flow n name pf pdef cc cdef pnc perr cerr pdirty cdirty hpf
    exact ⟨w, h1, h2, h3, h4⟩
  · intro ck cv hg
    obtain ⟨w, h1, h2, h3, h4, h5, h6, h7⟩ :=
      wired_child_flow n name ck cv pf pdef cc cdef pnc perr cerr pdirty cdirty hg
    exact ⟨w, h1, h3, h2, h4⟩

/-- A concrete wired configuration: parent `{list: &1}`, child `[1, 2, 3]`,
spare parent-originated container `[9]` at ref 2. -/
def wiredSample : World :=
  wiredWorld "list" [("list", .ref 1)] (.obj [("list", .ref 1)])
    (.arr [.prim (.num 1), .prim (.num 2), .prim (.num 3)])
    (.arr [.prim (.num 1), .prim (.num 2), .prim (.num 3)])
    (.arr [.prim (.num 9)]) [] [] [] []

/-- C1 witness: both directions of the no-loop property on the concrete
wired configuration. -/
theorem c1_witness :
    (∃ wfin, exec 2 wiredSample (.setValue .parent "list" (.ref 2)) = .ok wfin ∧
      wfin.counts 10 = 1 ∧ wfin.counts 11 = 0 ∧ wfin.counts 12 = 1) ∧
    (∃ wfin, exec 2 wiredSample (.setValue .child "0" (.prim (.num 42))) = .ok wfin ∧
      wfin.counts 11 = 1 ∧ wfin.counts 10 = 0 ∧ wfin.counts 12 = 1) :=
  ⟨(c1_composition_edge_no_loop 0 "list" [("list", .ref 1)] (.obj [("list", .ref 1)])
      (.arr [.prim (.num 1), .prim (.num 2), .prim (.num 3)])
      (.arr [.prim (.num 1), .prim (.num 2), .prim (.num 3)])
      (.arr [.prim (.num 9)]) [] [] [] [] rfl).1,
   (c1_composition_edge_no_loop 0 "list" [("list", .ref 1)] (.obj [("list", .ref 1)])
      (.arr [.prim (.num 1), .prim (.num 2), .prim (.num 3)])
      (.arr [.prim (.num 1), .prim (.num 2), .prim (.num 3)])
      (.arr [.prim (.num 9)]) [] [] [] [] rfl).2 "0" (.prim (.num 42)) rfl⟩

/-- C9 counterexample: the claim says the child's values container is a
*distinct* object from the value at the parent's field after a
child-originated mutation; on the concrete wired configuration, after
`child.setValue('0', 42)` the push-up stores `child.values` itself into the
parent (`parent.setValueInternal(name, child.values, ...)`), so the
parent's field holds a reference to the very same container (ref 1),
not a copy. -/
theorem c9_counterexample :
    (exec 2 wiredSample (.setValue .child "0" (.prim (.num 42)))).isOk = true ∧
    (nodeOf ((exec 2 wiredSample (.setValue .child "0" (.prim (.num 42)))).world)
      .child).valuesRef = 1 ∧
    cget (((exec 2 wiredSample (.setValue .child "0" (.prim (.num 42)))).world).heap
        (nodeOf ((exec 2 wiredSample (.setValue .child "0" (.prim (.num 42)))).world)
          .parent).valuesRef) "list" = .ref 1 :=
  ⟨rfl, rfl, rfl⟩

/-- C9 (amended): after a child-originated mutation propagated through the
Composition Edge, the value stored at the parent's field is the *same*
container object as the child's `values` (the push-up passes the reference
through `setValueInternal`, no copy is made on the upward hop); the
copy-on-write happens only at child creation and on default-replacing
downward pushes (`memberCopy` in `useChildForm` / `setValues` with
`isDefault`). -/
theorem c9_child_mutation_shares_object (n : Nat) (name ck : String) (cv : JsVal)
    (pf : List (String × JsVal)) (pdef cc cdef pnc : Container) (perr cerr : ErrMap)
    (pdirty cdirty : List (String × Bool))
    (hg : jsEq (cget cc ck) cv = false) :
    ∃ wfin, exec (n + 2) (wiredWorld name pf pdef cc cdef pnc perr cerr pdirty cdirty)
        (.setValue .child ck cv) = .ok wfin ∧
      cget (wfin.heap (nodeOf wfin .parent).valuesRef) name =
        .ref ((nodeOf wfin .child).valuesRef) := by
  obtain ⟨w, h1, h2, h3, h4, h5, h6, h7⟩ :=
    wired_child_flow n name ck cv pf pdef cc cdef pnc perr cerr pdirty cdirty hg
  refine ⟨w, h1, ?_⟩
  rw [h6]
  exact h7

/-- C9 witness: the amended shared-object fact on the concrete wired
configuration. -/
theorem c9_witness :
    ∃ wfin, exec 2 wiredSample (.setValue .child "0" (.prim (.num 42))) = .ok wfin ∧
      cget (wfin.heap (nodeOf wfin .parent).valuesRef) "list" =
        .ref ((nodeOf wfin .child).valuesRef) :=
  c9_child_mutation_shares_object 0 "list" "0" (.prim (.num 42)) [("list", .ref 1)]
    (.obj [("list", .ref 1)])
    (.arr [.prim (.num 1), .prim (.num 2), .prim (.num 3)])
    (.arr [.prim (.num 1), .prim (.num 2), .prim (.num 3)])
    (.arr [.prim (.num 9)]) [] [] [] [] rfl

/-! ## C10 — global id uniqueness from the static counter -/

/-- The id-consuming operations: constructing a `FormState` (`formId`),
`listen`, and `listenAny`, on either node — all draw from the single
static `FormState.currentId` counter. -/
inductive RegOp
  | newForm
  | listen (t : Target) (key : String)
  | listenAny (t : Target)

def runReg (w : World) : RegOp → World × Nat
  | .newForm => newFormW w
  | .listen t key => listenW w t key .obs
  | .listenAny t => listenAnyW w t .obs

/-- Run a sequence of id-consuming operations, collecting the returned
ids in order. -/
def runRegs : World → List RegOp → World × List Nat
  | w, [] => (w, [])
  | w, op :: rest =>
    ((runRegs (runReg w op).1 rest).1, (runReg w op).2 :: (runRegs (runReg w op).1 rest).2)

theorem runReg_id (w : World) (op : RegOp) : (runReg w op).2 = w.currentId := by
  cases op with
  | newForm => rfl
  | listen t key => cases t <;> rfl
  | listenAny t => cases t <;> rfl

theorem runReg_currentId (w : World) (op : RegOp) :
    (runReg w op).1.currentId = w.currentId + 1 := by
  cases op with
  | newForm => rfl
  | listen t key => cases t <;> rfl
  | listenAny t => cases t <;> rfl

theorem runRegs_lower_bound :
    ∀ (ops : List RegOp) (w : World), ∀ i ∈ (runRegs w ops).2, w.currentId ≤ i := by
  intro ops
  induction ops with
  | nil => intro w i hi; simp [runRegs] at hi
  | cons op rest ih =>
    intro w i hi
    rw [runRegs] at hi
    rcases List.mem_cons.mp hi with hi | hi
    · rw [hi, runReg_id]
    · have := ih (runReg w op).1 i hi
      rw [runReg_currentId] at this
      omega

theorem runRegs_strict_increase :
    ∀ (ops : List RegOp) (w : World), List.Pairwise (· < ·) (runRegs w ops).2 := by
  intro ops
  induction ops with
  | nil => intro w; simp [runRegs]
  | cons op rest ih =>
    intro w
    rw [runRegs]
    refine List.Pairwise.cons ?_ (ih (runReg w op).1)
    intro i hi
    have h1 := runRegs_lower_bound rest (runReg w op).1 i hi
    rw [runReg_currentId] at h1
    rw [runReg_id]
    omega

/-- C10: every id handed out by the constructor, `listen` and `listenAny` —
across both `FormState` instances — comes from the one strictly increasing
static counter, so the returned ids are strictly increasing and pairwise
distinct; consequently, on a duplicate-free all-observer registry, a
dispatch with `skipId = s` still invokes every registered id other than
`s` exactly once: the skip id can suppress at most the one intended
subscription, never an unrelated listener. -/
theorem c10_ids_globally_distinct (w : World) (ops : List RegOp) :
    (List.Pairwise (· < ·) (runRegs w ops).2 ∧ (runRegs w ops).2.Nodup) ∧
    (∀ (live : World → List (Nat × LKind)) (run : World → Nat → LKind → Res)
      (s : Nat) (w0 : World) (ids : List Nat) (c : Nat → Nat),
      (∀ c', live { w0 with counts := c' } = live w0) →
      (∀ p ∈ live w0, p.2 = LKind.obs) →
      (∀ w1 id, run w1 id .obs = .ok (bumpCount w1 id)) →
      (∀ id ∈ ids, (aget (live w0) id).isSome) → ids.Nodup →
      ∃ c', dispatchIds live run (some s) ids { w0 with counts := c } =
          .ok { w0 with counts := c' } ∧
        ∀ j ∈ ids, j ≠ s → c' j = c j + 1) := by
  constructor
  · have hp := runRegs_strict_increase ops w
    exact ⟨hp, hp.imp (fun h => Nat.ne_of_lt h)⟩
  · intro live run s w0 ids c hlive hobs hrun hin hnd
    obtain ⟨c', hc', hcf⟩ := dispatch_obs_exact live run (some s) w0 hlive hobs hrun ids c hin hnd
    refine ⟨c', hc', ?_⟩
    intro j hj hjs
    rw [hcf j]
    have : some s ≠ some j := fun hh => hjs (Option.some.inj hh).symm
    simp [hj, this]

/-- C10 witness: three mixed registrations from `currentId = 30` return
`[30, 31, 32]` (strictly increasing), and a skip id (99) unrelated to the
registered any-listener (22) does not suppress it. -/
theorem c10_witness :
    (List.Pairwise (· < ·) (runRegs sampleWorld
        [.newForm, .listen .parent "a", .listenAny .child]).2 ∧
      (runRegs sampleWorld [.newForm, .listen .parent "a", .listenAny .child]).2.Nodup) ∧
    (∃ c', dispatchIds (fun w' => (nodeOf w' .parent).anyListeners)
        (fun w' id k => kindToRes (exec 0) w' id k false) (some 99) [22]
        { sampleWorld with counts := fun _ => 0 } =
        .ok { sampleWorld with counts := c' } ∧
      ∀ j ∈ [22], j ≠ 99 → c' j = (fun _ => 0 : Nat → Nat) j + 1) := by
  have h := c10_ids_globally_distinct sampleWorld
    [.newForm, .listen .parent "a", .listenAny .child]
  exact ⟨h.1, h.2 (fun w' => (nodeOf w' .parent).anyListeners)
    (fun w' id k => kindToRes (exec 0) w' id k false) 99 sampleWorld [22]
    (fun _ => 0) (fun c' => rfl) (by decide) (fun w1 id => rfl) (by decide) (by decide)⟩

end FormSpec
